import Mathlib

/-!
# Verification of the grid_engine layout core

A shallow embedding of the `grid_engine` Rust crate (files `src/node.rs`,
`src/utils.rs`, `src/inner_grid.rs`, `src/grid_engine.rs`) together with
theorems settling the specification claims about it.

Modelling conventions:
* `usize` becomes `Nat` (no arithmetic in the code can overflow behaviour
  relevant to the claims; all index arithmetic is pure addition).
* Rust functions that mutate `&mut` state become Lean functions returning
  the updated state; fallible code returns the updated state together with
  an `Option` error (mirroring the fact that Rust's `?` leaves already
  performed mutations in place).
* The recursive collision-resolution pair `handle_collision` /
  `create_move_change` is given an explicit fuel parameter; `none` means
  the fuel ran out (a model artifact - theorems about executions quantify
  over all fuels, which covers every terminating run of the Rust code).
* `BTreeMap<String, Node>` becomes an association list kept sorted by key
  with unique keys (`mapInsert` replaces an existing binding in place,
  `mapErase` drops the binding for a key).
* The `GridEvents` field only notifies listeners; it does not influence
  the grid, the item map or the pending change list, so it is omitted
  from the engine state.
-/

namespace GridEngineModel

/-- `node.rs`: an item in the grid: id, top-left corner `(x, y)`,
width `w` and height `h`. -/
structure Node where
  id : String
  x : Nat
  y : Nat
  w : Nat
  h : Nat
deriving DecidableEq, Repr

/-- `error.rs`: errors of the inner grid. -/
inductive InnerGridError where
  | OutOfBoundsAccess (x y : Nat)
  | MismatchedGridItem (id : String)
deriving DecidableEq, Repr

/-- `error.rs`: item-level errors. -/
inductive ItemError where
  | ItemNotFound (id : String)
  | ItemAlreadyExists (id : String)
deriving DecidableEq, Repr

/-- `error.rs`: the public error type, wrapping the two taxonomies. -/
inductive GridEngineError where
  | InnerGrid (e : InnerGridError)
  | Item (e : ItemError)
deriving DecidableEq, Repr

/-- `inner_grid.rs`: operation selector for `InnerGrid::update`. -/
inductive UpdateGridOperation where
  | Add
  | Remove
deriving DecidableEq, Repr

/-- `utils.rs` `for_cell`: the list of cells visited for a rectangle at
`(x, y)` of size `w × h`; outer loop over `x` (`x..x+w`), inner loop over
`y` (`y..y+h`), exactly as the two Rust `for` loops. -/
def cellsOf (x y w h : Nat) : List (Nat × Nat) :=
  (List.range' x w).flatMap (fun cx => (List.range' y h).map (fun cy => (cx, cy)))

/-- `node.rs` `Node::for_cell`: the cells of a node's own rectangle. -/
def Node.cells (n : Node) : List (Nat × Nat) :=
  cellsOf n.x n.y n.w n.h

/-- `inner_grid.rs`: the grid: a `can_expand_y` flag, the fixed column
count, and the cells as a list of rows (row `y` is `cells[y]`, the cell
`(x, y)` is `cells[y][x]`, exactly as `grid::Grid` indexed by
`(row, col) = (y, x)`). -/
structure InnerGrid where
  can_expand_y : Bool
  cols : Nat
  cells : List (List (Option String))
deriving DecidableEq, Repr

namespace InnerGrid

/-- `grid::Grid::rows`: the current number of rows. -/
def rows (g : InnerGrid) : Nat := g.cells.length

/-- `inner_grid.rs` `InnerGrid::new`: `rows × cols` empty cells,
`can_expand_y = true`. -/
def new (rows cols : Nat) : InnerGrid :=
  { can_expand_y := true
    cols := cols
    cells := List.replicate rows (List.replicate cols none) }

/-- `inner_grid.rs` `InnerGrid::expand_rows`: append `n` rows of `cols`
empty cells. -/
def expand_rows (g : InnerGrid) (n : Nat) : InnerGrid :=
  { g with cells := g.cells ++ List.replicate n (List.replicate g.cols none) }

/-- `inner_grid.rs` `InnerGrid::handle_expansion`: grow the grid when the
access at `(x, y)` is beyond the rows, expansion is enabled and
`x < cols`. -/
def handle_expansion (g : InnerGrid) (x y : Nat) : InnerGrid :=
  if g.can_expand_y ∧ x < g.cols ∧ g.rows ≤ y then
    g.expand_rows (y - g.rows + 1)
  else g

/-- `grid::Grid::get(y, x)`: the raw bounds-checked cell lookup (no
expansion). -/
def rawGet (g : InnerGrid) (x y : Nat) : Option (Option String) :=
  match g.cells[y]? with
  | none => none
  | some row => row[x]?

/-- The expansion step shared by `get` / `get_mut` / `update`: when the
raw lookup fails, run `handle_expansion` first. -/
def expandForAccess (g : InnerGrid) (x y : Nat) : InnerGrid :=
  if (g.rawGet x y).isNone then g.handle_expansion x y else g

/-- `inner_grid.rs` `InnerGrid::get` / `get_mut`: try the raw lookup,
expanding first when it fails; returns the cell (if any) and the
possibly-expanded grid. -/
def get (g : InnerGrid) (x y : Nat) : Option (Option String) × InnerGrid :=
  ((g.expandForAccess x y).rawGet x y, g.expandForAccess x y)

/-- Writing through the `get_mut` reference: replace cell `(x, y)`. -/
def setCell (g : InnerGrid) (x y : Nat) (v : Option String) : InnerGrid :=
  { g with cells := g.cells.set y ((g.cells[y]?.getD []).set x v) }

/-- `inner_grid.rs` `InnerGrid::update`: get the cell (with expansion),
failing with `OutOfBoundsAccess` when absent; `Add` writes the node's id
unconditionally, `Remove` clears the cell only when it currently holds
this node's id. -/
def update (g : InnerGrid) (node : Node) (x y : Nat)
    (operation : UpdateGridOperation) : InnerGrid × Option InnerGridError :=
  match (g.expandForAccess x y).rawGet x y with
  | none => (g.expandForAccess x y, some (.OutOfBoundsAccess x y))
  | some cur =>
    match operation with
    | .Add => ((g.expandForAccess x y).setCell x y (some node.id), none)
    | .Remove =>
      if cur = some node.id then ((g.expandForAccess x y).setCell x y none, none)
      else (g.expandForAccess x y, none)

end InnerGrid

/-- The pure observational view of a cell: `some id` when `(x, y)` is in
bounds and holds `id`, otherwise `none`. -/
def cellAt (g : InnerGrid) (x y : Nat) : Option String :=
  (g.rawGet x y).join

/-- `node.rs` `Node::update_grid` unrolled over an explicit cell list:
issue one `InnerGrid::update` per cell, stopping at the first error (the
grid keeps the updates already performed, as under Rust's `?`). -/
def updateCells (node : Node) (op : UpdateGridOperation) :
    List (Nat × Nat) → InnerGrid → InnerGrid × Option InnerGridError
  | [], g => (g, none)
  | p :: rest, g =>
    match g.update node p.1 p.2 op with
    | (g', none) => updateCells node op rest g'
    | (g', some e) => (g', some e)

/-- `node.rs` `Node::update_grid`: apply the operation on every cell of
the node's rectangle. -/
def Node.update_grid (node : Node) (g : InnerGrid)
    (op : UpdateGridOperation) : InnerGrid × Option InnerGridError :=
  updateCells node op node.cells g

/-- `grid_engine.rs`: the `items: BTreeMap<String, Node>` registry,
modelled as an association list sorted by key with unique keys. -/
abbrev ItemMap := List (String × Node)

/-- `BTreeMap::get`. -/
def mapGet (m : ItemMap) (k : String) : Option Node :=
  match m.find? (fun p => p.1 = k) with
  | some p => some p.2
  | none => none

/-- `BTreeMap::insert`: replace the binding for `k` if present, otherwise
add it. (A `BTreeMap` keeps its keys sorted; the position of a binding in
the list is not observable through `get`/`insert`/`remove`, the only map
operations the modelled code path uses, so the list order is left as
replace-in-place-or-append.) -/
def mapInsert (m : ItemMap) (k : String) (v : Node) : ItemMap :=
  match m with
  | [] => [(k, v)]
  | (k', v') :: rest =>
    if k = k' then (k, v) :: rest
    else (k', v') :: mapInsert rest k v

/-- `BTreeMap::remove`: drop the binding for `k`. -/
def mapErase (m : ItemMap) (k : String) : ItemMap :=
  m.filter (fun p => p.1 ≠ k)

/-- `grid_engine.rs`: a pending structural change. -/
inductive Change where
  | Add (value : Node)
  | Remove (value : Node)
  | Move (old_value new_value : Node)
deriving DecidableEq, Repr

/-- `grid_engine.rs`: engine state: inner grid, item registry and the
pending change list (the `events` listener registry does not influence
any of these and is omitted). -/
structure GridEngine where
  grid : InnerGrid
  items : ItemMap
  pending_changes : List Change
deriving DecidableEq, Repr

namespace GridEngine

/-- `grid_engine.rs` `GridEngine::new`. -/
def new (rows cols : Nat) : GridEngine :=
  { grid := InnerGrid.new rows cols
    items := []
    pending_changes := [] }

end GridEngine

/-- The per-cell body of `GridEngine::will_collides_with`, iterated over
the remaining cells: read the cell (possibly expanding the grid), fail
with `OutOfBoundsAccess` when absent; a stored id different from the
probing node's id must resolve through the item map (else
`MismatchedGridItem`) and is collected without duplicates. Returns the
colliding nodes, the (possibly expanded) grid, and the error if any. -/
def wcwAux (items : ItemMap) (nodeId : String) :
    List (Nat × Nat) → List Node → InnerGrid →
    List Node × InnerGrid × Option InnerGridError
  | [], acc, g => (acc, g, none)
  | p :: rest, acc, g =>
    match g.get p.1 p.2 with
    | (none, g') => (acc, g', some (.OutOfBoundsAccess p.1 p.2))
    | (some none, g') => wcwAux items nodeId rest acc g'
    | (some (some cellRef), g') =>
      if cellRef = nodeId then wcwAux items nodeId rest acc g'
      else
        match mapGet items cellRef with
        | none => (acc, g', some (.MismatchedGridItem cellRef))
        | some n =>
          wcwAux items nodeId rest (if n ∈ acc then acc else acc ++ [n]) g'

/-- `grid_engine.rs` `GridEngine::will_collides_with`: scan the cells the
node would occupy at `(x, y)` and collect the distinct colliding nodes. -/
def will_collides_with (items : ItemMap) (node : Node) (x y : Nat)
    (g : InnerGrid) : List Node × InnerGrid × Option InnerGridError :=
  wcwAux items node.id (cellsOf x y node.w node.h) [] g

/-- The result shape of the planning functions: the pending change list,
the working grid, and the error if one occurred (the pending list and
grid reflect the mutations already performed when the error hit). -/
abbrev PlanResult := List Change × InnerGrid × Option InnerGridError

/-- `grid_engine.rs` `create_move_change`, the `already_moved` test: is a
`Move` whose `new_value` has this id already pending? -/
def already_moved (pending : List Change) (id : String) : Bool :=
  pending.any (fun change =>
    match change with
    | .Move _ nv => nv.id = id
    | _ => false)

/-- The `for collided in collides_with` loop of
`GridEngine::handle_collision`, with the recursive call to
`create_move_change` abstracted as `cmcF` (instantiated with the
one-less-fuel unfolding below). Each iteration clones the grid, erases
the incoming node's footprint from the clone, and schedules a move of the
collided node to `(collided.x, y + node.h)`; the clone is then discarded
(`grid` itself is returned), and pending-list mutations persist even when
an error propagates. -/
def clAux (cmcF : Node → Nat → Nat → List Change → InnerGrid → Option PlanResult)
    (node : Node) (y : Nat) :
    List Node → List Change → InnerGrid → Option PlanResult
  | [], pending, grid => some (pending, grid, none)
  | collided :: rest, pending, grid =>
    match node.update_grid grid .Remove with
    | (_, some e) => some (pending, grid, some e)
    | (new_grid, none) =>
      match cmcF collided collided.x (y + node.h) pending new_grid with
      | none => none
      | some (pending', _, some e) => some (pending', grid, some e)
      | some (pending', _, none) => clAux cmcF node y rest pending' grid

/-- `GridEngine::handle_collision` with the recursive
`create_move_change` call abstracted as `cmcF`: detect the collisions of
`node` placed at `(x, y)` and schedule a downward move for each collided
node. -/
def hcAux (cmcF : Node → Nat → Nat → List Change → InnerGrid → Option PlanResult)
    (items : ItemMap) (node : Node) (x y : Nat) (pending : List Change)
    (grid : InnerGrid) : Option PlanResult :=
  match will_collides_with items node x y grid with
  | (_, grid', some e) => some (pending, grid', some e)
  | (collides_with, grid', none) => clAux cmcF node y collides_with pending grid'

/-- `grid_engine.rs` `GridEngine::create_move_change`: resolve the
collisions at the destination first (recursively, via
`handle_collision`), then append a `Move` change unless one is already
pending for this id. `fuel` bounds the recursion depth; `none` means the
fuel ran out. -/
def create_move_change (fuel : Nat) (items : ItemMap) :
    Node → Nat → Nat → List Change → InnerGrid → Option PlanResult :=
  match fuel with
  | 0 => fun _ _ _ _ _ => none
  | fuel + 1 => fun node new_x new_y pending grid =>
    match hcAux (create_move_change fuel items) items node new_x new_y pending grid with
    | none => none
    | some (pending', grid', some e) => some (pending', grid', some e)
    | some (pending', grid', none) =>
      if already_moved pending' node.id then some (pending', grid', none)
      else
        some (pending' ++ [Change.Move node
          { id := node.id, x := new_x, y := new_y, w := node.w, h := node.h }],
          grid', none)

/-- `grid_engine.rs` `GridEngine::handle_collision` (entry point): the
loop over collided nodes calls `create_move_change` with the same fuel,
which recurses into `handle_collision` with one unit less. -/
def handle_collision (fuel : Nat) (items : ItemMap) (node : Node) (x y : Nat)
    (pending : List Change) (grid : InnerGrid) : Option PlanResult :=
  hcAux (create_move_change fuel items) items node x y pending grid

/-- One step of `GridEngine::apply_changes`: apply a single change to the
live grid and registry. `Add` writes the footprint then inserts into the
registry; `Remove` clears the footprint (id-guarded per cell) then
deletes; `Move` clears the old footprint, updates the registry, then
writes the new footprint. -/
def apply_one (grid : InnerGrid) (items : ItemMap) :
    Change → InnerGrid × ItemMap × Option InnerGridError
  | .Add node =>
    match node.update_grid grid .Add with
    | (grid', some e) => (grid', items, some e)
    | (grid', none) => (grid', mapInsert items node.id node, none)
  | .Remove node =>
    match node.update_grid grid .Remove with
    | (grid', some e) => (grid', items, some e)
    | (grid', none) => (grid', mapErase items node.id, none)
  | .Move old_value new_value =>
    match old_value.update_grid grid .Remove with
    | (grid', some e) => (grid', items, some e)
    | (grid', none) =>
      let items' := mapInsert items new_value.id new_value
      match new_value.update_grid grid' .Add with
      | (grid'', err) => (grid'', items', err)

/-- `grid_engine.rs` `GridEngine::apply_changes`: apply the changes in
order, stopping at the first error (earlier changes stay applied). -/
def apply_changes (grid : InnerGrid) (items : ItemMap) :
    List Change → InnerGrid × ItemMap × Option InnerGridError
  | [] => (grid, items, none)
  | c :: rest =>
    match apply_one grid items c with
    | (grid', items', some e) => (grid', items', some e)
    | (grid', items', none) => apply_changes grid' items' rest

namespace GridEngine

/-- `grid_engine.rs` `GridEngine::add_item`: fail if the id exists; run
collision resolution against a clone of the live grid (the clone is
discarded); append an `Add` change; apply the change set; clear the
pending list; return the registered node. Returns the updated engine with
the call's result; `none` means the planning fuel ran out. -/
def add_item (fuel : Nat) (e : GridEngine) (id : String) (x y w h : Nat) :
    Option (GridEngine × Except GridEngineError Node) :=
  if (mapGet e.items id).isSome then
    some (e, .error (.Item (.ItemAlreadyExists id)))
  else
    let node : Node := { id := id, x := x, y := y, w := w, h := h }
    match handle_collision fuel e.items node x y e.pending_changes e.grid with
    | none => none
    | some (pending', _, some err) =>
      some ({ e with pending_changes := pending' }, .error (.InnerGrid err))
    | some (pending', _, none) =>
      let pending'' := pending' ++ [Change.Add node]
      match apply_changes e.grid e.items pending'' with
      | (grid', items', some err) =>
        some ({ grid := grid', items := items', pending_changes := pending'' },
          .error (.InnerGrid err))
      | (grid', items', none) =>
        let e' : GridEngine := { grid := grid', items := items', pending_changes := [] }
        match mapGet items' id with
        | none => some (e', .error (.InnerGrid (.MismatchedGridItem id)))
        | some n => some (e', .ok n)

/-- `grid_engine.rs` `GridEngine::remove_item`: fail with `ItemNotFound`
if absent; otherwise append a `Remove` change for the registered node,
apply, clear the pending list and return the removed node. -/
def remove_item (e : GridEngine) (id : String) :
    GridEngine × Except GridEngineError Node :=
  match mapGet e.items id with
  | none => (e, .error (.Item (.ItemNotFound id)))
  | some node =>
    let pending' := e.pending_changes ++ [Change.Remove node]
    match apply_changes e.grid e.items pending' with
    | (grid', items', some err) =>
      ({ grid := grid', items := items', pending_changes := pending' },
        .error (.InnerGrid err))
    | (grid', items', none) =>
      ({ grid := grid', items := items', pending_changes := [] }, .ok node)

/-- `grid_engine.rs` `GridEngine::move_item`: fail with `ItemNotFound` if
absent; otherwise schedule the move against a clone of the live grid
(discarded afterwards), apply the change set and clear the pending
list. -/
def move_item (fuel : Nat) (e : GridEngine) (id : String) (new_x new_y : Nat) :
    Option (GridEngine × Except GridEngineError Unit) :=
  match mapGet e.items id with
  | none => some (e, .error (.Item (.ItemNotFound id)))
  | some node =>
    match create_move_change fuel e.items node new_x new_y e.pending_changes e.grid with
    | none => none
    | some (pending', _, some err) =>
      some ({ e with pending_changes := pending' }, .error (.InnerGrid err))
    | some (pending', _, none) =>
      match apply_changes e.grid e.items pending' with
      | (grid', items', some err) =>
        some ({ grid := grid', items := items', pending_changes := pending' },
          .error (.InnerGrid err))
      | (grid', items', none) =>
        some ({ grid := grid', items := items', pending_changes := [] }, .ok ())

end GridEngine

/-- A public operation of the engine, for stating properties of whole
call sequences. -/
inductive Op where
  | add (id : String) (x y w h : Nat)
  | move (id : String) (x y : Nat)
  | remove (id : String)
deriving DecidableEq, Repr

/-- Whether an `Except` result is a success. -/
def exceptOk {ε α : Type} : Except ε α → Bool
  | .ok _ => true
  | .error _ => false

/-- Run one public operation, keeping the resulting engine and whether
the call succeeded. -/
def runOp (fuel : Nat) (e : GridEngine) : Op → Option (GridEngine × Bool)
  | .add id x y w h =>
    (e.add_item fuel id x y w h).map (fun p => (p.1, exceptOk p.2))
  | .move id x y =>
    (e.move_item fuel id x y).map (fun p => (p.1, exceptOk p.2))
  | .remove id =>
    some ((e.remove_item id).1, exceptOk (e.remove_item id).2)

/-- One successful public operation relates two engine states (for some
fuel large enough for the cascade to complete, which covers every
terminating Rust execution). -/
def SuccStep (e e' : GridEngine) : Prop :=
  ∃ op fuel, runOp fuel e op = some (e', true)

/-- Engine states reachable from `e` by sequences of successful public
operations. -/
inductive Reaches : GridEngine → GridEngine → Prop
  | refl (e : GridEngine) : Reaches e e
  | step {e₁ e₂ e₃ : GridEngine} : Reaches e₁ e₂ → SuccStep e₂ e₃ → Reaches e₁ e₃

/-- Membership of a cell in a node's rectangle `[x, x+w) × [y, y+h)`. -/
def inRect (n : Node) (p : Nat × Nat) : Prop :=
  n.x ≤ p.1 ∧ p.1 < n.x + n.w ∧ n.y ≤ p.2 ∧ p.2 < n.y + n.h

instance (n : Node) (p : Nat × Nat) : Decidable (inRect n p) := by
  unfold inRect; infer_instance

/-- §3 cross-structure consistency: every grid cell holding `Some id`
has `id` registered, and lies inside the rectangle of the node registered
under `id`. -/
def Consistent (g : InnerGrid) (items : ItemMap) : Prop :=
  ∀ x y id, cellAt g x y = some id →
    ∃ n, mapGet items id = some n ∧ inRect n (x, y)

/-- Registry well-formedness: the node stored under a key carries that
key as its id (true for every reachable state; `BTreeMap` keys are the
node ids). -/
def WFItems (items : ItemMap) : Prop :=
  ∀ k n, mapGet items k = some n → n.id = k

/-- The engine invariant carried through every successful operation. -/
def EngineInv (e : GridEngine) : Prop :=
  Consistent e.grid e.items ∧ WFItems e.items ∧ e.pending_changes = []

/-! ## Cell-enumeration lemmas -/

theorem mem_cellsOf {x y w h : Nat} {p : Nat × Nat} :
    p ∈ cellsOf x y w h ↔ x ≤ p.1 ∧ p.1 < x + w ∧ y ≤ p.2 ∧ p.2 < y + h := by
  cases p with
  | mk a b =>
    simp only [cellsOf, List.mem_flatMap, List.mem_map, List.mem_range'_1,
      Prod.mk.injEq]
    constructor
    · rintro ⟨cx, ⟨h1, h2⟩, cy, ⟨h3, h4⟩, rfl, rfl⟩
      exact ⟨h1, h2, h3, h4⟩
    · rintro ⟨h1, h2, h3, h4⟩
      exact ⟨a, ⟨h1, h2⟩, b, ⟨h3, h4⟩, rfl, rfl⟩

theorem mem_cells {n : Node} {p : Nat × Nat} :
    p ∈ n.cells ↔ inRect n p := by
  simp [Node.cells, mem_cellsOf, inRect]

/-! ## InnerGrid lemmas -/

namespace InnerGrid

theorem rows_new (r c : Nat) : (new r c).rows = r := by
  simp [new, rows]

theorem getElem?_replicate_cases {α : Type} {n i : Nat} {a b : α}
    (h : (List.replicate n a)[i]? = some b) : b = a := by
  rw [List.getElem?_replicate] at h
  by_cases hi : i < n
  · simp [hi] at h; exact h.symm
  · simp [hi] at h

theorem cellAt_new (r c x y : Nat) : cellAt (new r c) x y = none := by
  unfold cellAt rawGet new
  rcases hy : (List.replicate r (List.replicate c (none : Option String)))[y]? with _ | row
  · simp
  · have hrow := getElem?_replicate_cases hy
    subst hrow
    rcases hx : (List.replicate c (none : Option String))[x]? with _ | v
    · simp [hx]
    · have := getElem?_replicate_cases hx
      simp [hx, this]

theorem rows_expand_rows (g : InnerGrid) (n : Nat) :
    (g.expand_rows n).rows = g.rows + n := by
  simp [expand_rows, rows]

theorem cols_expand_rows (g : InnerGrid) (n : Nat) :
    (g.expand_rows n).cols = g.cols := rfl

theorem cellAt_expand_rows (g : InnerGrid) (n x y : Nat) :
    cellAt (g.expand_rows n) x y = cellAt g x y := by
  unfold cellAt rawGet expand_rows
  by_cases hy : y < g.cells.length
  · rw [List.getElem?_append_left hy]
  · push_neg at hy
    rw [List.getElem?_append_right hy]
    have h1 : g.cells[y]? = none := by
      rw [List.getElem?_eq_none]; exact hy
    rw [h1]
    rcases h2 : (List.replicate n (List.replicate g.cols (none : Option String)))[y - g.cells.length]? with _ | row
    · simp
    · have hrow := getElem?_replicate_cases h2
      subst hrow
      rcases h3 : (List.replicate g.cols (none : Option String))[x]? with _ | v
      · simp [h3]
      · have := getElem?_replicate_cases h3
        simp [h3, this]

theorem rows_le_handle_expansion (g : InnerGrid) (x y : Nat) :
    g.rows ≤ (g.handle_expansion x y).rows := by
  unfold handle_expansion
  split
  · rw [rows_expand_rows]; omega
  · exact le_refl _

theorem cellAt_handle_expansion (g : InnerGrid) (x y a b : Nat) :
    cellAt (g.handle_expansion x y) a b = cellAt g a b := by
  unfold handle_expansion
  split
  · exact cellAt_expand_rows g _ a b
  · rfl

theorem rows_setCell (g : InnerGrid) (x y : Nat) (v : Option String) :
    (g.setCell x y v).rows = g.rows := by
  simp [setCell, rows]

theorem cellAt_setCell {g : InnerGrid} {x y : Nat} {row : List (Option String)}
    {cur : Option String} (hy : g.cells[y]? = some row) (hx : row[x]? = some cur)
    (v : Option String) (a b : Nat) :
    cellAt (g.setCell x y v) a b = if a = x ∧ b = y then v else cellAt g a b := by
  have hylt : y < g.cells.length := by
    rcases List.getElem?_eq_some.mp hy with ⟨h, _⟩
    exact h
  have hxlt : x < row.length := by
    rcases List.getElem?_eq_some.mp hx with ⟨h, _⟩
    exact h
  unfold cellAt rawGet setCell
  simp only [hy, Option.getD_some]
  by_cases hb : b = y
  · subst hb
    simp only [List.getElem?_set_eq_of_lt _ hylt]
    by_cases ha : a = x
    · subst ha
      simp [List.getElem?_set_eq_of_lt _ hxlt]
    · simp [List.getElem?_set_ne (fun h => ha h.symm), ha, hy]
  · simp [List.getElem?_set_ne (fun h => hb h.symm), hb]

theorem cellAt_expandForAccess (g : InnerGrid) (x y a b : Nat) :
    cellAt (g.expandForAccess x y) a b = cellAt g a b := by
  unfold expandForAccess
  split
  · exact cellAt_handle_expansion g x y a b
  · rfl

theorem rows_le_expandForAccess (g : InnerGrid) (x y : Nat) :
    g.rows ≤ (g.expandForAccess x y).rows := by
  unfold expandForAccess
  split
  · exact rows_le_handle_expansion g x y
  · exact le_refl _

theorem rawGet_destruct {g : InnerGrid} {x y : Nat} {cur : Option String}
    (h : g.rawGet x y = some cur) :
    ∃ row, g.cells[y]? = some row ∧ row[x]? = some cur := by
  unfold rawGet at h
  rcases h1 : g.cells[y]? with _ | row
  · rw [h1] at h; exact absurd h (by simp)
  · rw [h1] at h; exact ⟨row, rfl, h⟩

theorem cellAt_of_rawGet {g : InnerGrid} {x y : Nat} {cur : Option String}
    (h : g.rawGet x y = some cur) : cellAt g x y = cur := by
  unfold cellAt
  rw [h]
  rfl

/-- On success, `update` with `Add` sets exactly cell `(x, y)` to the
node's id. -/
theorem update_add_char {g g' : InnerGrid} {node : Node} {x y : Nat}
    (h : g.update node x y .Add = (g', none)) (a b : Nat) :
    cellAt g' a b = if a = x ∧ b = y then some node.id else cellAt g a b := by
  unfold update at h
  rcases hraw : (g.expandForAccess x y).rawGet x y with _ | cur <;> rw [hraw] at h
  · simp at h
  · simp only [Prod.mk.injEq] at h
    obtain ⟨rfl, -⟩ := h
    obtain ⟨row, hy, hx⟩ := rawGet_destruct hraw
    rw [cellAt_setCell hy hx (some node.id) a b, cellAt_expandForAccess]

/-- On success, `update` with `Remove` clears cell `(x, y)` exactly when
it held the node's id, and changes nothing else. -/
theorem update_remove_char {g g' : InnerGrid} {node : Node} {x y : Nat}
    (h : g.update node x y .Remove = (g', none)) (a b : Nat) :
    cellAt g' a b =
      if a = x ∧ b = y ∧ cellAt g x y = some node.id then none
      else cellAt g a b := by
  unfold update at h
  rcases hraw : (g.expandForAccess x y).rawGet x y with _ | cur <;> rw [hraw] at h
  · simp at h
  · dsimp only at h
    have hcur : cellAt g x y = cur := by
      rw [← cellAt_expandForAccess g x y x y]
      exact cellAt_of_rawGet hraw
    obtain ⟨row, hy, hx⟩ := rawGet_destruct hraw
    by_cases hmatch : cur = some node.id
    · rw [if_pos hmatch] at h
      simp only [Prod.mk.injEq] at h
      obtain ⟨rfl, -⟩ := h
      rw [cellAt_setCell hy hx none a b, cellAt_expandForAccess, hcur, hmatch]
      by_cases hab : a = x ∧ b = y
      · simp [hab]
      · simp only [hab, if_false]
        rw [if_neg]
        rintro ⟨ha, hb, -⟩
        exact hab ⟨ha, hb⟩
    · rw [if_neg hmatch] at h
      simp only [Prod.mk.injEq] at h
      obtain ⟨rfl, -⟩ := h
      rw [cellAt_expandForAccess, hcur]
      rw [if_neg]
      rintro ⟨-, -, hc⟩
      exact hmatch hc

/-- `update` never removes rows, success or failure. -/
theorem update_rows_mono {g g' : InnerGrid} {node : Node} {x y : Nat}
    {op : UpdateGridOperation} {err : Option InnerGridError}
    (h : g.update node x y op = (g', err)) : g.rows ≤ g'.rows := by
  unfold update at h
  have hrows := rows_le_expandForAccess g x y
  rcases hraw : (g.expandForAccess x y).rawGet x y with _ | cur <;> rw [hraw] at h
  · simp only [Prod.mk.injEq] at h
    obtain ⟨rfl, -⟩ := h
    exact hrows
  · cases op with
    | Add =>
      simp only [Prod.mk.injEq] at h
      obtain ⟨rfl, -⟩ := h
      rw [rows_setCell]; exact hrows
    | Remove =>
      have h2 : (if cur = some node.id
          then ((g.expandForAccess x y).setCell x y none, (none : Option InnerGridError))
          else (g.expandForAccess x y, none)) = (g', err) := h
      by_cases hmatch : cur = some node.id
      · rw [if_pos hmatch] at h2
        simp only [Prod.mk.injEq] at h2
        obtain ⟨rfl, -⟩ := h2
        rw [rows_setCell]; exact hrows
      · rw [if_neg hmatch] at h2
        simp only [Prod.mk.injEq] at h2
        obtain ⟨rfl, -⟩ := h2
        exact hrows

end InnerGrid

/-! ## Footprint-pass lemmas (`Node::update_grid`) -/

/-- A successful `Add` pass over a cell list writes the node's id to
exactly those cells. -/
theorem updateCells_add_char {node : Node} {L : List (Nat × Nat)}
    {g g' : InnerGrid} (h : updateCells node .Add L g = (g', none)) :
    ∀ p : Nat × Nat, cellAt g' p.1 p.2 =
      if p ∈ L then some node.id else cellAt g p.1 p.2 := by
  induction L generalizing g with
  | nil =>
    unfold updateCells at h
    simp only [Prod.mk.injEq] at h
    obtain ⟨rfl, -⟩ := h
    simp
  | cons q rest ih =>
    unfold updateCells at h
    rcases hstep : g.update node q.1 q.2 .Add with ⟨g₁, e₁⟩
    rw [hstep] at h
    cases e₁ with
    | some e => simp at h
    | none =>
      intro p
      have hrest := ih h p
      have hone := InnerGrid.update_add_char hstep p.1 p.2
      by_cases hmem : p ∈ rest
      · simp only [hmem, if_true] at hrest
        simp [hrest, List.mem_cons, hmem]
      · simp only [hmem, if_false] at hrest
        rw [hrest, hone]
        by_cases hq : p = q
        · have : p.1 = q.1 ∧ p.2 = q.2 := by rw [hq]; exact ⟨rfl, rfl⟩
          simp [hq, this]
        · have : ¬(p.1 = q.1 ∧ p.2 = q.2) := by
            rintro ⟨h1, h2⟩
            exact hq (Prod.ext h1 h2)
          simp [this, List.mem_cons, hq, hmem]

/-- A successful `Remove` pass over a cell list clears exactly those of
its cells that currently hold the node's id. -/
theorem updateCells_remove_char {node : Node} {L : List (Nat × Nat)}
    {g g' : InnerGrid} (h : updateCells node .Remove L g = (g', none)) :
    ∀ p : Nat × Nat, cellAt g' p.1 p.2 =
      if p ∈ L ∧ cellAt g p.1 p.2 = some node.id then none
      else cellAt g p.1 p.2 := by
  induction L generalizing g with
  | nil =>
    unfold updateCells at h
    simp only [Prod.mk.injEq] at h
    obtain ⟨rfl, -⟩ := h
    simp
  | cons q rest ih =>
    unfold updateCells at h
    rcases hstep : g.update node q.1 q.2 .Remove with ⟨g₁, e₁⟩
    rw [hstep] at h
    cases e₁ with
    | some e => simp at h
    | none =>
      intro p
      have hrest := ih h p
      have hone := fun (a b : Nat) => InnerGrid.update_remove_char hstep a b
      by_cases hq : p = q
      · subst hq
        by_cases hheld : cellAt g p.1 p.2 = some node.id
        · have hg1 : cellAt g₁ p.1 p.2 = none := by
            rw [hone p.1 p.2, if_pos ⟨rfl, rfl, hheld⟩]
          rw [hg1] at hrest
          simp at hrest
          rw [hrest, if_pos ⟨List.mem_cons_self p rest, hheld⟩]
        · have hg1 : cellAt g₁ p.1 p.2 = cellAt g p.1 p.2 := by
            rw [hone p.1 p.2, if_neg]
            rintro ⟨-, -, hc⟩
            exact hheld hc
          rw [hg1] at hrest
          rw [hrest, if_neg (by rintro ⟨-, hc⟩; exact hheld hc),
            if_neg (by rintro ⟨-, hc⟩; exact hheld hc)]
      · have hg1 : cellAt g₁ p.1 p.2 = cellAt g p.1 p.2 := by
          rw [hone p.1 p.2, if_neg]
          rintro ⟨h1, h2, -⟩
          exact hq (Prod.ext h1 h2)
        rw [hg1] at hrest
        rw [hrest]
        have hmem : p ∈ q :: rest ↔ p ∈ rest := by
          simp [List.mem_cons, hq]
        by_cases hcond : p ∈ rest ∧ cellAt g p.1 p.2 = some node.id
        · rw [if_pos hcond, if_pos ⟨hmem.mpr hcond.1, hcond.2⟩]
        · rw [if_neg hcond, if_neg (by rintro ⟨hm, hc⟩; exact hcond ⟨hmem.mp hm, hc⟩)]

/-- A footprint pass never removes rows, success or failure. -/
theorem updateCells_rows_mono {node : Node} {op : UpdateGridOperation}
    {L : List (Nat × Nat)} {g g' : InnerGrid} {err : Option InnerGridError}
    (h : updateCells node op L g = (g', err)) : g.rows ≤ g'.rows := by
  induction L generalizing g with
  | nil =>
    unfold updateCells at h
    simp only [Prod.mk.injEq] at h
    obtain ⟨rfl, -⟩ := h
    exact le_refl _
  | cons q rest ih =>
    unfold updateCells at h
    rcases hstep : g.update node q.1 q.2 op with ⟨g₁, e₁⟩
    rw [hstep] at h
    have h1 := InnerGrid.update_rows_mono hstep
    cases e₁ with
    | some e =>
      simp only [Prod.mk.injEq] at h
      obtain ⟨rfl, -⟩ := h
      exact h1
    | none => exact le_trans h1 (ih h)

/-- `Node::update_grid` phrased through the rectangle membership. -/
theorem update_grid_add_char {node : Node} {g g' : InnerGrid}
    (h : node.update_grid g .Add = (g', none)) (a b : Nat) :
    cellAt g' a b =
      if inRect node (a, b) then some node.id else cellAt g a b := by
  have := updateCells_add_char h (a, b)
  simp only [mem_cells] at this
  exact this

theorem update_grid_remove_char {node : Node} {g g' : InnerGrid}
    (h : node.update_grid g .Remove = (g', none)) (a b : Nat) :
    cellAt g' a b =
      if inRect node (a, b) ∧ cellAt g a b = some node.id then none
      else cellAt g a b := by
  have := updateCells_remove_char h (a, b)
  simp only [mem_cells] at this
  exact this

theorem update_grid_rows_mono {node : Node} {op : UpdateGridOperation}
    {g g' : InnerGrid} {err : Option InnerGridError}
    (h : node.update_grid g op = (g', err)) : g.rows ≤ g'.rows :=
  updateCells_rows_mono h

/-! ## Item-map lemmas -/

theorem mapGet_insert_self (m : ItemMap) (k : String) (v : Node) :
    mapGet (mapInsert m k v) k = some v := by
  induction m with
  | nil => simp [mapInsert, mapGet, List.find?]
  | cons p rest ih =>
    rcases p with ⟨k', v'⟩
    unfold mapInsert
    by_cases h2 : k = k'
    · simp [h2, mapGet, List.find?]
    · have hne : k' ≠ k := fun h => h2 h.symm
      simp only [if_neg h2]
      unfold mapGet at ih ⊢
      simp [List.find?, hne, ih]

theorem mapGet_insert_ne (m : ItemMap) (k : String) (v : Node) (k' : String)
    (h : k' ≠ k) : mapGet (mapInsert m k v) k' = mapGet m k' := by
  have hkk : k ≠ k' := Ne.symm h
  induction m with
  | nil => simp [mapInsert, mapGet, List.find?, hkk]
  | cons p rest ih =>
    rcases p with ⟨a, b⟩
    unfold mapInsert
    by_cases h2 : k = a
    · simp only [if_pos h2]
      unfold mapGet
      subst h2
      simp [List.find?, hkk]
    · simp only [if_neg h2]
      unfold mapGet at ih ⊢
      by_cases h3 : a = k'
      · simp [List.find?, h3]
      · simp only [List.find?]
        have hd : (decide (a = k')) = false := by simp [h3]
        rw [hd]
        exact ih

theorem mapGet_erase (m : ItemMap) (k k' : String) :
    mapGet (mapErase m k) k' = if k' = k then none else mapGet m k' := by
  induction m with
  | nil => simp [mapErase, mapGet, List.find?]
  | cons p rest ih =>
    rcases p with ⟨a, b⟩
    unfold mapErase at ih ⊢
    rw [List.filter_cons]
    by_cases h1 : a = k
    · have hd : (decide (a ≠ k)) = false := by simp [h1]
      rw [hd]
      simp only [Bool.false_eq_true, if_false]
      rw [ih]
      by_cases h2 : k' = k
      · simp [h2]
      · rw [if_neg h2, if_neg h2]
        unfold mapGet
        simp only [List.find?]
        have hne : (decide (a = k')) = false := by
          simp only [decide_eq_false_iff_not]
          rw [h1]
          exact Ne.symm h2
        rw [hne]
    · have hd : (decide (a ≠ k)) = true := by simp [h1]
      rw [hd]
      simp only [if_true]
      unfold mapGet
      simp only [List.find?]
      by_cases h2 : a = k'
      · have hdd : (decide (a = k')) = true := by simp [h2]
        rw [hdd]
        have : ¬(k' = k) := by rw [← h2]; exact h1
        rw [if_neg this]
      · have hdd : (decide (a = k')) = false := by simp [h2]
        rw [hdd]
        exact ih

theorem WFItems_insert {m : ItemMap} (h : WFItems m) (n : Node) :
    WFItems (mapInsert m n.id n) := by
  intro k v hv
  by_cases hk : k = n.id
  · subst hk
    rw [mapGet_insert_self] at hv
    cases hv
    rfl
  · rw [mapGet_insert_ne _ _ _ _ hk] at hv
    exact h k v hv

theorem WFItems_erase {m : ItemMap} (h : WFItems m) (k : String) :
    WFItems (mapErase m k) := by
  intro k' v hv
  rw [mapGet_erase] at hv
  by_cases hk : k' = k
  · simp [hk] at hv
  · rw [if_neg hk] at hv
    exact h k' v hv

/-! ## Collision-detection lemmas -/

/-- Every node collected by `will_collides_with` was resolved through the
item map (or was already in the accumulator). -/
theorem wcwAux_registered (items : ItemMap) (nodeId : String)
    (L : List (Nat × Nat)) (acc : List Node) (g : InnerGrid) :
    ∀ n' ∈ (wcwAux items nodeId L acc g).1,
      (∃ k, mapGet items k = some n') ∨ n' ∈ acc := by
  induction L generalizing acc g with
  | nil =>
    intro n' h
    unfold wcwAux at h
    exact Or.inr h
  | cons p rest ih =>
    intro n' h
    unfold wcwAux at h
    rcases hg : g.get p.1 p.2 with ⟨o, g'⟩
    rw [hg] at h
    rcases o with _ | o
    · exact Or.inr h
    · rcases o with _ | cid
      · exact ih acc g' n' h
      · dsimp only at h
        by_cases hc : cid = nodeId
        · rw [if_pos hc] at h
          exact ih acc g' n' h
        · rw [if_neg hc] at h
          rcases hmap : mapGet items cid with _ | n
          · rw [hmap] at h
            exact Or.inr h
          · rw [hmap] at h
            rcases ih _ g' n' h with hreg | hacc
            · exact Or.inl hreg
            · by_cases hmem : n ∈ acc
              · rw [if_pos hmem] at hacc
                exact Or.inr hacc
              · rw [if_neg hmem] at hacc
                rcases List.mem_append.mp hacc with h1 | h2
                · exact Or.inr h1
                · have : n' = n := by simpa using h2
                  subst this
                  exact Or.inl ⟨cid, hmap⟩

/-! ## Planning invariant (used for the consistency theorem) -/

/-- The id of a pending `Move`, if the change is one. -/
def moveId : Change → Option String
  | .Move _ nv => some nv.id
  | _ => none

/-- Invariant of the pending list during collision resolution: only
`Move` changes, each moving a currently registered node without renaming
it, with pairwise distinct move ids (thanks to the `already_moved`
dedup). -/
def PlanOk (items : ItemMap) (cs : List Change) : Prop :=
  (∀ c ∈ cs, ∃ o nv, c = Change.Move o nv ∧
    mapGet items o.id = some o ∧ nv.id = o.id) ∧
  (cs.filterMap moveId).Nodup

theorem already_moved_iff {pending : List Change} {id : String} :
    already_moved pending id = true ↔ id ∈ pending.filterMap moveId := by
  simp only [already_moved, List.any_eq_true, List.mem_filterMap]
  constructor
  · rintro ⟨c, hc, hpred⟩
    cases c with
    | Move o nv =>
      refine ⟨Change.Move o nv, hc, ?_⟩
      simp only [moveId, Option.some.injEq]
      simpa using hpred
    | Add n => simp at hpred
    | Remove n => simp at hpred
  · rintro ⟨c, hc, hmid⟩
    cases c with
    | Move o nv =>
      refine ⟨Change.Move o nv, hc, ?_⟩
      simp only [moveId, Option.some.injEq] at hmid
      simpa using hmid
    | Add n => simp [moveId] at hmid
    | Remove n => simp [moveId] at hmid

/-- The per-function property threaded through the planning recursion:
called on a registered node with a `PlanOk` pending list, the function
yields a `PlanOk` pending list. -/
def CmcGood (items : ItemMap)
    (f : Node → Nat → Nat → List Change → InnerGrid → Option PlanResult) : Prop :=
  ∀ c nx ny pending grid res,
    f c nx ny pending grid = some res →
    mapGet items c.id = some c →
    PlanOk items pending →
    PlanOk items res.1

theorem clAux_plan {items : ItemMap}
    {f : Node → Nat → Nat → List Change → InnerGrid → Option PlanResult}
    (hf : CmcGood items f) (node : Node) (y : Nat) :
    ∀ (cw : List Node) (pending : List Change) (grid : InnerGrid) res,
      clAux f node y cw pending grid = some res →
      (∀ c ∈ cw, mapGet items c.id = some c) →
      PlanOk items pending →
      PlanOk items res.1 := by
  intro cw
  induction cw with
  | nil =>
    intro pending grid res h _ hp
    unfold clAux at h
    cases h
    exact hp
  | cons collided rest ih =>
    intro pending grid res h hreg hp
    unfold clAux at h
    rcases hupd : node.update_grid grid .Remove with ⟨new_grid, e⟩
    rw [hupd] at h
    rcases e with _ | e
    · dsimp only at h
      rcases hcmc : f collided collided.x (y + node.h) pending new_grid with _ | ⟨p', g', err⟩
      · rw [hcmc] at h
        exact absurd h (by simp)
      · rw [hcmc] at h
        have hp' : PlanOk items p' :=
          hf collided collided.x (y + node.h) pending new_grid (p', g', err) hcmc
            (hreg collided (List.mem_cons_self _ _)) hp
        rcases err with _ | e
        · exact ih p' grid res h
            (fun c hc => hreg c (List.mem_cons_of_mem _ hc)) hp'
        · cases h
          exact hp'
    · cases h
      exact hp

theorem hcAux_plan {items : ItemMap} (hWF : WFItems items)
    {f : Node → Nat → Nat → List Change → InnerGrid → Option PlanResult}
    (hf : CmcGood items f) (node : Node) (x y : Nat)
    (pending : List Change) (grid : InnerGrid) (res : PlanResult)
    (h : hcAux f items node x y pending grid = some res)
    (hp : PlanOk items pending) : PlanOk items res.1 := by
  unfold hcAux at h
  rcases hw : will_collides_with items node x y grid with ⟨cw, grid', err⟩
  rw [hw] at h
  rcases err with _ | e
  · dsimp only at h
    refine clAux_plan hf node y cw pending grid' res h ?_ hp
    intro c hc
    have hmem : c ∈ (wcwAux items node.id (cellsOf x y node.w node.h) [] grid).1 := by
      unfold will_collides_with at hw
      rw [hw]
      exact hc
    rcases wcwAux_registered items node.id
        (cellsOf x y node.w node.h) [] grid c hmem with ⟨k, hk⟩ | habs
    · have := hWF k c hk
      rw [← this] at hk
      exact hk
    · simp at habs
  · cases h
    exact hp

theorem cmc_plan {items : ItemMap} (hWF : WFItems items) :
    ∀ fuel, CmcGood items (create_move_change fuel items) := by
  intro fuel
  induction fuel with
  | zero =>
    intro c nx ny p g res h
    exact absurd h (by simp [create_move_change])
  | succ f ih =>
    intro c nx ny p g res h hreg hp
    unfold create_move_change at h
    rcases hh : hcAux (create_move_change f items) items c nx ny p g with _ | ⟨p', g', err⟩
    · rw [hh] at h
      exact absurd h (by simp)
    · rw [hh] at h
      have hp' : PlanOk items p' :=
        hcAux_plan hWF ih c nx ny p g (p', g', err) hh hp
      rcases err with _ | e
      · dsimp only at h
        by_cases ham : already_moved p' c.id
        · rw [if_pos ham] at h
          cases h
          exact hp'
        · rw [if_neg ham] at h
          cases h
          constructor
          · intro ch hch
            rcases List.mem_append.mp hch with h1 | h2
            · exact hp'.1 ch h1
            · have : ch = Change.Move c
                  { id := c.id, x := nx, y := ny, w := c.w, h := c.h } := by
                simpa using h2
              subst this
              exact ⟨c, _, rfl, hreg, rfl⟩
          · rw [List.filterMap_append]
            have hsingle : List.filterMap moveId [Change.Move c
                { id := c.id, x := nx, y := ny, w := c.w, h := c.h }] = [c.id] := by
              simp [moveId]
            rw [hsingle]
            have hnotin : c.id ∉ p'.filterMap moveId := by
              intro hin
              rw [← already_moved_iff] at hin
              exact ham hin
            exact List.Nodup.append hp'.2 (List.nodup_singleton _)
              (by
                intro a ha hb
                have : a = c.id := by simpa using hb
                subst this
                exact hnotin ha)
      · cases h
        exact hp'

/-- `handle_collision` preserves the planning invariant. -/
theorem handle_collision_plan {items : ItemMap} (hWF : WFItems items)
    (fuel : Nat) (node : Node) (x y : Nat) (pending : List Change)
    (grid : InnerGrid) (res : PlanResult)
    (h : handle_collision fuel items node x y pending grid = some res)
    (hp : PlanOk items pending) : PlanOk items res.1 :=
  hcAux_plan hWF (cmc_plan hWF fuel) node x y pending grid res h hp

/-! ## Commit-phase lemmas (`apply_changes`) -/

/-- The registry key a change touches. -/
def ChangeId : Change → String
  | .Add n => n.id
  | .Remove n => n.id
  | .Move o _ => o.id

/-- Precondition on a change set at commit time: each `Add` id is fresh,
each `Remove`/`Move` moves the currently registered node (`Move` without
renaming), and the touched keys are pairwise distinct. -/
def ChangesOk (items : ItemMap) (cs : List Change) : Prop :=
  (∀ c ∈ cs, match c with
    | .Add n => mapGet items n.id = none
    | .Remove n => mapGet items n.id = some n
    | .Move o nv => mapGet items o.id = some o ∧ nv.id = o.id) ∧
  (cs.map ChangeId).Nodup

/-- After applying the head change, the tail's precondition still holds:
the head only rebinds its own key, which the tail never touches. -/
theorem ChangesOk_tail {items i₁ : ItemMap} {c : Change} {rest : List Change}
    (hOk : ChangesOk items (c :: rest))
    (hpres : ∀ k, k ≠ ChangeId c → mapGet i₁ k = mapGet items k) :
    ChangesOk i₁ rest := by
  obtain ⟨hall, hnd⟩ := hOk
  rw [List.map_cons, List.nodup_cons] at hnd
  refine ⟨?_, hnd.2⟩
  intro c' hc'
  have hP := hall c' (List.mem_cons_of_mem _ hc')
  have hne : ChangeId c' ≠ ChangeId c := by
    intro he
    exact hnd.1 (he ▸ List.mem_map_of_mem ChangeId hc')
  cases c' with
  | Add n =>
    have hne' : n.id ≠ ChangeId c := hne
    dsimp only at hP ⊢
    rw [hpres n.id hne']
    exact hP
  | Remove n =>
    have hne' : n.id ≠ ChangeId c := hne
    dsimp only at hP ⊢
    rw [hpres n.id hne']
    exact hP
  | Move o nv =>
    have hne' : o.id ≠ ChangeId c := hne
    dsimp only at hP ⊢
    exact ⟨by rw [hpres o.id hne']; exact hP.1, hP.2⟩

theorem consistent_after_add {grid gp : InnerGrid} {items : ItemMap} {n : Node}
    (hpass : n.update_grid grid .Add = (gp, none))
    (hfresh : mapGet items n.id = none)
    (hCons : Consistent grid items) :
    Consistent gp (mapInsert items n.id n) := by
  intro a b id hcell
  rw [update_grid_add_char hpass a b] at hcell
  by_cases hin : inRect n (a, b)
  · rw [if_pos hin] at hcell
    cases hcell
    exact ⟨n, mapGet_insert_self _ _ _, hin⟩
  · rw [if_neg hin] at hcell
    obtain ⟨m, hm, hr⟩ := hCons a b id hcell
    have hid : id ≠ n.id := by
      rintro rfl
      rw [hfresh] at hm
      exact absurd hm (by simp)
    exact ⟨m, by rw [mapGet_insert_ne _ _ _ _ hid]; exact hm, hr⟩

theorem consistent_after_remove {grid gp : InnerGrid} {items : ItemMap} {n : Node}
    (hpass : n.update_grid grid .Remove = (gp, none))
    (hreg : mapGet items n.id = some n)
    (hCons : Consistent grid items) :
    Consistent gp (mapErase items n.id) := by
  intro a b id hcell
  rw [update_grid_remove_char hpass a b] at hcell
  by_cases hc : inRect n (a, b) ∧ cellAt grid a b = some n.id
  · rw [if_pos hc] at hcell
    exact absurd hcell (by simp)
  · rw [if_neg hc] at hcell
    obtain ⟨m, hm, hr⟩ := hCons a b id hcell
    have hid : id ≠ n.id := by
      rintro rfl
      rw [hreg] at hm
      injection hm with hm
      subst hm
      exact hc ⟨hr, hcell⟩
    refine ⟨m, ?_, hr⟩
    rw [mapGet_erase, if_neg hid]
    exact hm

theorem consistent_after_move {grid g1 g2 : InnerGrid} {items : ItemMap}
    {o nv : Node}
    (hrem : o.update_grid grid .Remove = (g1, none))
    (hadd : nv.update_grid g1 .Add = (g2, none))
    (hreg : mapGet items o.id = some o)
    (hid : nv.id = o.id)
    (hCons : Consistent grid items) :
    Consistent g2 (mapInsert items nv.id nv) := by
  intro a b id hcell
  rw [update_grid_add_char hadd a b] at hcell
  by_cases hin : inRect nv (a, b)
  · rw [if_pos hin] at hcell
    cases hcell
    exact ⟨nv, mapGet_insert_self _ _ _, hin⟩
  · rw [if_neg hin] at hcell
    rw [update_grid_remove_char hrem a b] at hcell
    by_cases hc : inRect o (a, b) ∧ cellAt grid a b = some o.id
    · rw [if_pos hc] at hcell
      exact absurd hcell (by simp)
    · rw [if_neg hc] at hcell
      obtain ⟨m, hm, hr⟩ := hCons a b id hcell
      have hidne : id ≠ nv.id := by
        intro he
        have ho : id = o.id := he.trans hid
        rw [ho] at hm hcell
        rw [hreg] at hm
        injection hm with hm
        subst hm
        exact hc ⟨hr, hcell⟩
      refine ⟨m, ?_, hr⟩
      rw [mapGet_insert_ne _ _ _ _ hidne]
      exact hm

/-- The heart of the consistency claim: a change set satisfying
`ChangesOk`, applied successfully to a consistent state, yields a
consistent state with a well-formed registry. -/
theorem apply_changes_inv :
    ∀ (cs : List Change) (grid : InnerGrid) (items : ItemMap)
      (grid' : InnerGrid) (items' : ItemMap),
      ChangesOk items cs → WFItems items → Consistent grid items →
      apply_changes grid items cs = (grid', items', none) →
      Consistent grid' items' ∧ WFItems items' := by
  intro cs
  induction cs with
  | nil =>
    intro grid items grid' items' _ hWF hCons happ
    unfold apply_changes at happ
    simp only [Prod.mk.injEq] at happ
    obtain ⟨rfl, rfl, -⟩ := happ
    exact ⟨hCons, hWF⟩
  | cons c rest ih =>
    intro grid items grid' items' hOk hWF hCons happ
    unfold apply_changes at happ
    rcases h1 : apply_one grid items c with ⟨g₁, i₁, err⟩
    rw [h1] at happ
    rcases err with _ | e
    · dsimp only at happ
      have hhead := hOk.1 c (List.mem_cons_self _ _)
      have hstep : Consistent g₁ i₁ ∧ WFItems i₁ ∧
          (∀ k, k ≠ ChangeId c → mapGet i₁ k = mapGet items k) := by
        cases c with
        | Add n =>
          have hh : mapGet items n.id = none := hhead
          unfold apply_one at h1
          dsimp only at h1
          rcases hpass : n.update_grid grid .Add with ⟨gp, ep⟩
          rw [hpass] at h1
          rcases ep with _ | e2
          · dsimp only at h1
            simp only [Prod.mk.injEq] at h1
            obtain ⟨rfl, rfl, -⟩ := h1
            refine ⟨consistent_after_add hpass hh hCons, WFItems_insert hWF n, ?_⟩
            intro k hk
            exact mapGet_insert_ne _ _ _ _ hk
          · simp at h1
        | Remove n =>
          have hh : mapGet items n.id = some n := hhead
          unfold apply_one at h1
          dsimp only at h1
          rcases hpass : n.update_grid grid .Remove with ⟨gp, ep⟩
          rw [hpass] at h1
          rcases ep with _ | e2
          · dsimp only at h1
            simp only [Prod.mk.injEq] at h1
            obtain ⟨rfl, rfl, -⟩ := h1
            refine ⟨consistent_after_remove hpass hh hCons, WFItems_erase hWF n.id, ?_⟩
            intro k hk
            have hk' : k ≠ n.id := hk
            rw [mapGet_erase, if_neg hk']
          · simp at h1
        | Move o nv =>
          have hh : mapGet items o.id = some o ∧ nv.id = o.id := hhead
          unfold apply_one at h1
          dsimp only at h1
          rcases hpass : o.update_grid grid .Remove with ⟨gp, ep⟩
          rw [hpass] at h1
          rcases ep with _ | e2
          · dsimp only at h1
            rcases hpass2 : nv.update_grid gp .Add with ⟨gp2, ep2⟩
            rw [hpass2] at h1
            rcases ep2 with _ | e3
            · simp only [Prod.mk.injEq] at h1
              obtain ⟨rfl, rfl, -⟩ := h1
              have hWFi : WFItems (mapInsert items nv.id nv) := by
                have := WFItems_insert hWF nv
                exact this
              refine ⟨consistent_after_move hpass hpass2 hh.1 hh.2 hCons, hWFi, ?_⟩
              intro k hk
              have : k ≠ nv.id := by
                rw [hh.2]
                exact hk
              exact mapGet_insert_ne _ _ _ _ this
            · simp at h1
          · simp at h1
      exact ih g₁ i₁ grid' items'
        (ChangesOk_tail hOk hstep.2.2) hstep.2.1 hstep.1 happ
    · dsimp only at happ
      simp at happ

/-! ## From the planning invariant to the commit precondition -/

theorem map_ChangeId_eq_filterMap {items : ItemMap} {cs : List Change}
    (h : ∀ c ∈ cs, ∃ o nv, c = Change.Move o nv ∧
      mapGet items o.id = some o ∧ nv.id = o.id) :
    cs.map ChangeId = cs.filterMap moveId := by
  induction cs with
  | nil => rfl
  | cons c rest ih =>
    obtain ⟨o, nv, rfl, -, hid⟩ := h c (List.mem_cons_self _ _)
    rw [List.map_cons, List.filterMap_cons]
    simp only [moveId, ChangeId, hid]
    rw [ih (fun c hc => h c (List.mem_cons_of_mem _ hc))]

theorem ChangesOk_of_PlanOk {items : ItemMap} {cs : List Change}
    (hp : PlanOk items cs) : ChangesOk items cs := by
  refine ⟨?_, ?_⟩
  · intro c hc
    obtain ⟨o, nv, rfl, hreg, hid⟩ := hp.1 c hc
    exact ⟨hreg, hid⟩
  · rw [map_ChangeId_eq_filterMap hp.1]
    exact hp.2

/-- A planning-produced pending list followed by a fresh `Add` satisfies
the commit precondition. -/
theorem ChangesOk_add {items : ItemMap} {pending : List Change} {node : Node}
    (hp : PlanOk items pending) (hfresh : mapGet items node.id = none) :
    ChangesOk items (pending ++ [Change.Add node]) := by
  refine ⟨?_, ?_⟩
  · intro c hc
    rcases List.mem_append.mp hc with h1 | h2
    · obtain ⟨o, nv, rfl, hreg, hid⟩ := hp.1 c h1
      exact ⟨hreg, hid⟩
    · have : c = Change.Add node := by simpa using h2
      subst this
      exact hfresh
  · rw [List.map_append]
    have h1 : (pending.map ChangeId).Nodup := (ChangesOk_of_PlanOk hp).2
    have h2 : List.map ChangeId [Change.Add node] = [node.id] := by
      simp [ChangeId]
    rw [h2]
    refine List.Nodup.append h1 (List.nodup_singleton _) ?_
    intro a ha hb
    have hb' : a = node.id := by simpa using hb
    subst hb'
    rcases List.mem_map.mp ha with ⟨c, hc, hcid⟩
    obtain ⟨o, nv, rfl, hreg, -⟩ := hp.1 c hc
    have : ChangeId (Change.Move o nv) = o.id := rfl
    rw [this] at hcid
    rw [hcid] at hreg
    rw [hfresh] at hreg
    exact absurd hreg (by simp)

/-- A singleton `Remove` of the registered node satisfies the commit
precondition. -/
theorem ChangesOk_remove {items : ItemMap} {node : Node}
    (hreg : mapGet items node.id = some node) :
    ChangesOk items [Change.Remove node] := by
  refine ⟨?_, ?_⟩
  · intro c hc
    have : c = Change.Remove node := by simpa using hc
    subst this
    exact hreg
  · simp

/-! ## Operation-level invariant preservation -/

theorem PlanOk_nil (items : ItemMap) : PlanOk items [] := by
  constructor
  · intro c hc
    simp at hc
  · simp

theorem add_item_preserves {fuel : Nat} {e e' : GridEngine} {id : String}
    {x y w h : Nat} {n : Node}
    (hInv : EngineInv e)
    (hcall : e.add_item fuel id x y w h = some (e', .ok n)) : EngineInv e' := by
  obtain ⟨hCons, hWF, hPend⟩ := hInv
  unfold GridEngine.add_item at hcall
  by_cases hdup : (mapGet e.items id).isSome
  · rw [if_pos hdup] at hcall
    simp at hcall
  · rw [if_neg hdup] at hcall
    dsimp only at hcall
    rcases hhc : handle_collision fuel e.items
        { id := id, x := x, y := y, w := w, h := h } x y e.pending_changes e.grid
      with _ | ⟨pending', gdrop, errp⟩
    · rw [hhc] at hcall
      simp at hcall
    · rw [hhc] at hcall
      rcases errp with _ | errp
      · dsimp only at hcall
        rcases happ : apply_changes e.grid e.items
            (pending' ++ [Change.Add { id := id, x := x, y := y, w := w, h := h }])
          with ⟨grid', items', erra⟩
        rw [happ] at hcall
        rcases erra with _ | erra
        · dsimp only at hcall
          have hfresh : mapGet e.items id = none := by
            rcases hm : mapGet e.items id with _ | v
            · rfl
            · rw [hm] at hdup
              simp at hdup
          have hplan : PlanOk e.items pending' := by
            have := handle_collision_plan hWF fuel
              { id := id, x := x, y := y, w := w, h := h } x y
              e.pending_changes e.grid (pending', gdrop, none) hhc
              (by rw [hPend]; exact PlanOk_nil e.items)
            exact this
          have hOk : ChangesOk e.items
              (pending' ++ [Change.Add { id := id, x := x, y := y, w := w, h := h }]) :=
            ChangesOk_add hplan hfresh
          have hinv' := apply_changes_inv _ e.grid e.items grid' items' hOk hWF hCons happ
          have he' : e' = { grid := grid', items := items', pending_changes := [] } := by
            rcases hlook : mapGet items' id with _ | v
            · rw [hlook] at hcall
              simp at hcall
            · rw [hlook] at hcall
              simp only [Option.some.injEq, Prod.mk.injEq] at hcall
              exact hcall.1.symm
          rw [he']
          exact ⟨hinv'.1, hinv'.2, rfl⟩
        · dsimp only at hcall
          simp at hcall
      · dsimp only at hcall
        simp at hcall

theorem remove_item_preserves {e e' : GridEngine} {id : String} {n : Node}
    (hInv : EngineInv e)
    (hcall : e.remove_item id = (e', .ok n)) : EngineInv e' := by
  obtain ⟨hCons, hWF, hPend⟩ := hInv
  unfold GridEngine.remove_item at hcall
  rcases hm : mapGet e.items id with _ | node
  · rw [hm] at hcall
    simp at hcall
  · rw [hm] at hcall
    dsimp only at hcall
    rcases happ : apply_changes e.grid e.items
        (e.pending_changes ++ [Change.Remove node]) with ⟨grid', items', erra⟩
    rw [happ] at hcall
    rcases erra with _ | erra
    · dsimp only at hcall
      simp only [Prod.mk.injEq] at hcall
      have hreg : mapGet e.items node.id = some node := by
        have := hWF id node hm
        rw [this]
        exact hm
      have hOk : ChangesOk e.items (e.pending_changes ++ [Change.Remove node]) := by
        rw [hPend]
        simpa using ChangesOk_remove hreg
      have hinv' := apply_changes_inv _ e.grid e.items grid' items' hOk hWF hCons happ
      have he' : e' = { grid := grid', items := items', pending_changes := [] } :=
        hcall.1.symm
      rw [he']
      exact ⟨hinv'.1, hinv'.2, rfl⟩
    · dsimp only at hcall
      simp at hcall

theorem move_item_preserves {fuel : Nat} {e e' : GridEngine} {id : String}
    {nx ny : Nat}
    (hInv : EngineInv e)
    (hcall : e.move_item fuel id nx ny = some (e', .ok ())) : EngineInv e' := by
  obtain ⟨hCons, hWF, hPend⟩ := hInv
  unfold GridEngine.move_item at hcall
  rcases hm : mapGet e.items id with _ | node
  · rw [hm] at hcall
    simp at hcall
  · rw [hm] at hcall
    dsimp only at hcall
    rcases hcmc : create_move_change fuel e.items node nx ny e.pending_changes e.grid
      with _ | ⟨pending', gdrop, errp⟩
    · rw [hcmc] at hcall
      simp at hcall
    · rw [hcmc] at hcall
      rcases errp with _ | errp
      · dsimp only at hcall
        rcases happ : apply_changes e.grid e.items pending' with ⟨grid', items', erra⟩
        rw [happ] at hcall
        rcases erra with _ | erra
        · dsimp only at hcall
          simp only [Option.some.injEq, Prod.mk.injEq] at hcall
          have hreg : mapGet e.items node.id = some node := by
            have := hWF id node hm
            rw [this]
            exact hm
          have hplan : PlanOk e.items pending' :=
            cmc_plan hWF fuel node nx ny e.pending_changes e.grid
              (pending', gdrop, none) hcmc hreg
              (by rw [hPend]; exact PlanOk_nil e.items)
          have hOk : ChangesOk e.items pending' := ChangesOk_of_PlanOk hplan
          have hinv' := apply_changes_inv _ e.grid e.items grid' items' hOk hWF hCons happ
          have he' : e' = { grid := grid', items := items', pending_changes := [] } :=
            hcall.1.symm
          rw [he']
          exact ⟨hinv'.1, hinv'.2, rfl⟩
        · dsimp only at hcall
          simp at hcall
      · dsimp only at hcall
        simp at hcall

theorem runOp_preserves {fuel : Nat} {e e' : GridEngine} {op : Op}
    (hInv : EngineInv e) (h : runOp fuel e op = some (e', true)) :
    EngineInv e' := by
  cases op with
  | add id x y w h' =>
    unfold runOp at h
    dsimp only at h
    rcases hcall : e.add_item fuel id x y w h' with _ | ⟨e₁, r⟩
    · rw [hcall] at h
      simp at h
    · rw [hcall] at h
      simp only [Option.map_some', Option.some.injEq, Prod.mk.injEq] at h
      obtain ⟨rfl, hok⟩ := h
      rcases r with v | v
      · simp [exceptOk] at hok
      · exact add_item_preserves hInv hcall
  | move id x y =>
    unfold runOp at h
    dsimp only at h
    rcases hcall : e.move_item fuel id x y with _ | ⟨e₁, r⟩
    · rw [hcall] at h
      simp at h
    · rw [hcall] at h
      simp only [Option.map_some', Option.some.injEq, Prod.mk.injEq] at h
      obtain ⟨rfl, hok⟩ := h
      rcases r with v | v
      · simp [exceptOk] at hok
      · exact move_item_preserves hInv (by rw [hcall])
  | remove id =>
    unfold runOp at h
    dsimp only at h
    simp only [Option.some.injEq, Prod.mk.injEq] at h
    obtain ⟨he, hok⟩ := h
    rcases hcall : e.remove_item id with ⟨e₁, r⟩
    rw [hcall] at he hok
    rcases r with v | v
    · simp [exceptOk] at hok
    · have he2 : e₁ = e' := he
      subst he2
      exact remove_item_preserves hInv hcall

theorem EngineInv_new (rows cols : Nat) : EngineInv (GridEngine.new rows cols) := by
  refine ⟨?_, ?_, rfl⟩
  · intro x y id hcell
    rw [show (GridEngine.new rows cols).grid = InnerGrid.new rows cols from rfl] at hcell
    rw [InnerGrid.cellAt_new] at hcell
    exact absurd hcell (by simp)
  · intro k n hk
    simp [mapGet, List.find?] at hk

theorem Reaches_inv {rows cols : Nat} {e : GridEngine}
    (h : Reaches (GridEngine.new rows cols) e) : EngineInv e := by
  induction h with
  | refl => exact EngineInv_new rows cols
  | step hreach hstep ih =>
    obtain ⟨op, fuel, hrun⟩ := hstep
    exact runOp_preserves ih hrun

/-! ## Claim theorems -/

/-- C1: for every sequence of public operations (`add_item`, `move_item`,
`remove_item`) on an engine created by `new(rows, cols)` in which each
operation returns success, after every operation the cross-structure
consistency invariant holds: every grid cell holding `Some id` has `id`
registered in the item map, and that cell lies inside the rectangle
`[x, x+w) × [y, y+h)` of the node registered under `id`. -/
theorem C1_grid_registry_consistency (rows cols : Nat) (e : GridEngine)
    (h : Reaches (GridEngine.new rows cols) e) :
    Consistent e.grid e.items :=
  (Reaches_inv h).1

/-- Concrete engine for the C1 witness: one successful `add_item` on a
`3 × 3` engine. -/
def c1WitnessEngine : GridEngine :=
  ((runOp 5 (GridEngine.new 3 3) (Op.add "x" 0 0 2 2)).map (fun p => p.1)).getD
    (GridEngine.new 3 3)

theorem C1_grid_registry_consistency_witness :
    Consistent c1WitnessEngine.grid c1WitnessEngine.items :=
  C1_grid_registry_consistency 3 3 c1WitnessEngine
    (Reaches.step (Reaches.refl _) ⟨Op.add "x" 0 0 2 2, 5, by rfl⟩)

/-- C5: for every engine state and every id already registered in the
item map, `add_item` with that id (any `x, y, w, h`) fails with
`ItemAlreadyExists{id}` and leaves the engine (grid, item registry, and
pending change list) unchanged: the call returns the engine state it was
given. -/
theorem C5_duplicate_add_rejected (fuel : Nat) (e : GridEngine) (id : String)
    (x y w h : Nat) (n : Node) (hdup : mapGet e.items id = some n) :
    e.add_item fuel id x y w h =
      some (e, Except.error (GridEngineError.Item (ItemError.ItemAlreadyExists id))) := by
  unfold GridEngine.add_item
  rw [if_pos (by rw [hdup]; rfl)]

/-- Concrete engine for the C5 witness: one registered item `"a"`. -/
def c5WitnessEngine : GridEngine :=
  { grid := InnerGrid.new 2 2
    items := [("a", ⟨"a", 0, 0, 1, 1⟩)]
    pending_changes := [] }

theorem C5_duplicate_add_rejected_witness :
    GridEngine.add_item 5 c5WitnessEngine "a" 1 1 1 1 =
      some (c5WitnessEngine,
        Except.error (GridEngineError.Item (ItemError.ItemAlreadyExists "a"))) :=
  C5_duplicate_add_rejected 5 c5WitnessEngine "a" 1 1 1 1 ⟨"a", 0, 0, 1, 1⟩ (by rfl)

/-- C6: for every engine state and every id not registered in the item
map, `move_item(id, x, y)` and `remove_item(id)` fail with
`ItemNotFound{id}` and leave the engine unchanged: both calls return the
engine state they were given. -/
theorem C6_unknown_id_rejected (fuel : Nat) (e : GridEngine) (id : String)
    (x y : Nat) (hnone : mapGet e.items id = none) :
    e.move_item fuel id x y =
      some (e, Except.error (GridEngineError.Item (ItemError.ItemNotFound id))) ∧
    e.remove_item id =
      (e, Except.error (GridEngineError.Item (ItemError.ItemNotFound id))) := by
  constructor
  · unfold GridEngine.move_item
    rw [hnone]
  · unfold GridEngine.remove_item
    rw [hnone]

theorem C6_unknown_id_rejected_witness :
    (GridEngine.move_item 5 (GridEngine.new 2 2) "z" 0 0 =
      some (GridEngine.new 2 2,
        Except.error (GridEngineError.Item (ItemError.ItemNotFound "z")))) ∧
    (GridEngine.remove_item (GridEngine.new 2 2) "z" =
      (GridEngine.new 2 2,
        Except.error (GridEngineError.Item (ItemError.ItemNotFound "z")))) :=
  C6_unknown_id_rejected 5 (GridEngine.new 2 2) "z" 0 0 (by rfl)

/-- C9: enumerating the cells of a node at `(x, y)` with size `w × h`
produces exactly the coordinate pairs of `[x, x+w) × [y, y+h)`, in
column-major order (outer loop over `x` ascending, inner loop over `y`
ascending, captured by strict lexicographic ordering of the produced
list); a node at `(1,2)` of size `2 × 2` yields
`(1,2), (1,3), (2,2), (2,3)`; when `w = 0` or `h = 0` no cell is
produced. -/
theorem C9_cell_enumeration :
    (∀ x y w h (p : Nat × Nat), p ∈ cellsOf x y w h ↔
      (x ≤ p.1 ∧ p.1 < x + w ∧ y ≤ p.2 ∧ p.2 < y + h)) ∧
    (∀ x y w h, (cellsOf x y w h).Pairwise
      (fun p q => p.1 < q.1 ∨ (p.1 = q.1 ∧ p.2 < q.2))) ∧
    (∀ x y h, cellsOf x y 0 h = []) ∧
    (∀ x y w, cellsOf x y w 0 = []) ∧
    cellsOf 1 2 2 2 = [(1, 2), (1, 3), (2, 2), (2, 3)] := by
  refine ⟨fun x y w h p => mem_cellsOf, ?_, ?_, ?_, by decide⟩
  · intro x y w h
    unfold cellsOf
    rw [List.pairwise_flatMap]
    constructor
    · intro a ha
      rw [List.pairwise_map]
      refine List.Pairwise.imp ?_ (List.pairwise_lt_range' y h)
      intro m n hmn
      exact Or.inr ⟨rfl, hmn⟩
    · refine List.Pairwise.imp ?_ (List.pairwise_lt_range' x w)
      intro a b hab
      intro p hp q hq
      rcases List.mem_map.mp hp with ⟨m, -, rfl⟩
      rcases List.mem_map.mp hq with ⟨n, -, rfl⟩
      exact Or.inl hab
  · intro x y h
    unfold cellsOf
    simp
  · intro x y w
    unfold cellsOf
    simp

/-- Row shape well-formedness: every row has exactly `cols` cells (true
for every grid built by `new` / grown by `expand_rows`). -/
def RowsWF (g : InnerGrid) : Prop :=
  ∀ row ∈ g.cells, row.length = g.cols

theorem rawGet_none_of_rows_le {g : InnerGrid} {x y : Nat}
    (h : g.rows ≤ y) : g.rawGet x y = none := by
  unfold InnerGrid.rawGet
  rw [List.getElem?_eq_none h]

/-- C7: accessing a cell at `(x, y)` with `x < cols` and `y ≥ rows` while
growth is allowed grows the grid by exactly `y - rows + 1` rows (to
`y + 1` rows), fills the new cells with empty, and then serves the
access — a read returns the empty cell and a write succeeds, cell
`(x, y)` then holding the written id; a grid created with `rows = 3`
receiving a write at `(1, 4)` grows to `5` rows and the write succeeds,
while with growth disabled the same write fails with
`OutOfBoundsAccess{x:1, y:4}` and the row count stays `3`; any access
with `x ≥ cols` also fails with an out-of-bounds error. -/
theorem C7_grid_growth :
    (∀ (g : InnerGrid) (node : Node) (x y : Nat),
      g.can_expand_y = true → x < g.cols → g.rows ≤ y →
        (g.get x y).1 = some none ∧ (g.get x y).2.rows = y + 1 ∧
        (g.update node x y .Add).2 = none ∧
        (g.update node x y .Add).1.rows = y + 1 ∧
        cellAt (g.update node x y .Add).1 x y = some node.id ∧
        (∀ a b, g.rows ≤ b → ¬(a = x ∧ b = y) →
          cellAt (g.update node x y .Add).1 a b = none)) ∧
    (∀ (g : InnerGrid) (node : Node) (x y : Nat) (op : UpdateGridOperation),
      g.can_expand_y = false → g.rows ≤ y →
        g.update node x y op = (g, some (.OutOfBoundsAccess x y))) ∧
    (∀ (g : InnerGrid) (node : Node) (x y : Nat) (op : UpdateGridOperation),
      RowsWF g → g.cols ≤ x →
        g.update node x y op = (g, some (.OutOfBoundsAccess x y))) ∧
    (((InnerGrid.new 3 3).update ⟨"t", 1, 4, 1, 1⟩ 1 4 .Add).2 = none ∧
      ((InnerGrid.new 3 3).update ⟨"t", 1, 4, 1, 1⟩ 1 4 .Add).1.rows = 5) ∧
    ({ InnerGrid.new 3 3 with can_expand_y := false }.update
        ⟨"t", 1, 4, 1, 1⟩ 1 4 .Add =
      ({ InnerGrid.new 3 3 with can_expand_y := false },
        some (.OutOfBoundsAccess 1 4))) := by
  refine ⟨?_, ?_, ?_, by decide, by decide⟩
  · intro g node x y hexp hx hy
    have hraw : g.rawGet x y = none := rawGet_none_of_rows_le hy
    have hefa : g.expandForAccess x y = g.expand_rows (y - g.rows + 1) := by
      unfold InnerGrid.expandForAccess
      rw [hraw]
      simp only [Option.isNone_none, if_true]
      unfold InnerGrid.handle_expansion
      rw [if_pos ⟨hexp, hx, hy⟩]
    have hrows1 : (g.expandForAccess x y).rows = y + 1 := by
      rw [hefa, InnerGrid.rows_expand_rows]
      omega
    obtain ⟨row, hrowy, hrowshape⟩ :
        ∃ row, (g.expandForAccess x y).cells[y]? = some row ∧
          row = List.replicate g.cols none := by
      rw [hefa]
      unfold InnerGrid.expand_rows
      refine ⟨List.replicate g.cols none, ?_, rfl⟩
      have hylen : g.cells.length ≤ y := hy
      rw [List.getElem?_append_right hylen]
      rw [List.getElem?_replicate]
      have : y - g.cells.length < y - g.rows + 1 := by
        unfold InnerGrid.rows
        omega
      rw [if_pos this]
    have hrowx : row[x]? = some none := by
      rw [hrowshape, List.getElem?_replicate, if_pos hx]
    have hraw1 : (g.expandForAccess x y).rawGet x y = some none := by
      unfold InnerGrid.rawGet
      rw [hrowy]
      dsimp only
      exact hrowx
    have hnewempty : ∀ a b, g.rows ≤ b →
        cellAt (g.expandForAccess x y) a b = none := by
      intro a b hb
      rw [hefa, InnerGrid.cellAt_expand_rows]
      unfold cellAt
      rw [rawGet_none_of_rows_le hb]
      rfl
    refine ⟨?_, ?_, ?_, ?_, ?_, ?_⟩
    · unfold InnerGrid.get
      rw [hraw1]
    · unfold InnerGrid.get
      exact hrows1
    · unfold InnerGrid.update
      rw [hraw1]
    · unfold InnerGrid.update
      rw [hraw1]
      dsimp only
      rw [InnerGrid.rows_setCell]
      exact hrows1
    · unfold InnerGrid.update
      rw [hraw1]
      dsimp only
      rw [InnerGrid.cellAt_setCell hrowy hrowx (some node.id) x y]
      simp
    · intro a b hb hab
      unfold InnerGrid.update
      rw [hraw1]
      dsimp only
      rw [InnerGrid.cellAt_setCell hrowy hrowx (some node.id) a b, if_neg hab]
      exact hnewempty a b hb
  · intro g node x y op hexp hy
    have hraw : g.rawGet x y = none := rawGet_none_of_rows_le hy
    have hefa : g.expandForAccess x y = g := by
      unfold InnerGrid.expandForAccess
      rw [hraw]
      simp only [Option.isNone_none, if_true]
      unfold InnerGrid.handle_expansion
      rw [if_neg]
      rintro ⟨hc, -⟩
      rw [hexp] at hc
      exact absurd hc (by simp)
    unfold InnerGrid.update
    rw [hefa, hraw]
  · intro g node x y op hWF hx
    have hraw : g.rawGet x y = none := by
      unfold InnerGrid.rawGet
      rcases hrow : g.cells[y]? with _ | row
      · rfl
      · have hmem : row ∈ g.cells := by
          rcases List.getElem?_eq_some.mp hrow with ⟨hlt, hget⟩
          rw [← hget]
          exact List.getElem_mem _
        have hlen : row.length = g.cols := hWF row hmem
        dsimp only
        rw [List.getElem?_eq_none]
        rw [hlen]
        exact hx
    have hefa : g.expandForAccess x y = g := by
      unfold InnerGrid.expandForAccess
      rw [hraw]
      simp only [Option.isNone_none, if_true]
      unfold InnerGrid.handle_expansion
      rw [if_neg]
      rintro ⟨-, hc, -⟩
      omega
    unfold InnerGrid.update
    rw [hefa, hraw]

theorem C7_grid_growth_witness :
    ((InnerGrid.new 3 3).get 1 4).1 = some none ∧
    ((InnerGrid.new 3 3).get 1 4).2.rows = 5 := by
  have h := C7_grid_growth.1 (InnerGrid.new 3 3) ⟨"t", 1, 4, 1, 1⟩ 1 4
    (by decide) (by decide) (by decide)
  exact ⟨h.1, h.2.1⟩

/-! ## Row-count monotonicity -/

theorem apply_one_rows_mono {grid : InnerGrid} {items : ItemMap} {c : Change}
    {g' : InnerGrid} {i' : ItemMap} {err : Option InnerGridError}
    (h : apply_one grid items c = (g', i', err)) : grid.rows ≤ g'.rows := by
  cases c with
  | Add n =>
    unfold apply_one at h
    dsimp only at h
    rcases hpass : n.update_grid grid .Add with ⟨gp, ep⟩
    rw [hpass] at h
    rcases ep with _ | e <;> dsimp only at h <;>
      simp only [Prod.mk.injEq] at h <;> obtain ⟨rfl, -⟩ := h <;>
      exact update_grid_rows_mono hpass
  | Remove n =>
    unfold apply_one at h
    dsimp only at h
    rcases hpass : n.update_grid grid .Remove with ⟨gp, ep⟩
    rw [hpass] at h
    rcases ep with _ | e <;> dsimp only at h <;>
      simp only [Prod.mk.injEq] at h <;> obtain ⟨rfl, -⟩ := h <;>
      exact update_grid_rows_mono hpass
  | Move o nv =>
    unfold apply_one at h
    dsimp only at h
    rcases hpass : o.update_grid grid .Remove with ⟨gp, ep⟩
    rw [hpass] at h
    rcases ep with _ | e
    · dsimp only at h
      rcases hpass2 : nv.update_grid gp .Add with ⟨gp2, ep2⟩
      rw [hpass2] at h
      simp only [Prod.mk.injEq] at h
      obtain ⟨rfl, -⟩ := h
      exact le_trans (update_grid_rows_mono hpass) (update_grid_rows_mono hpass2)
    · dsimp only at h
      simp only [Prod.mk.injEq] at h
      obtain ⟨rfl, -⟩ := h
      exact update_grid_rows_mono hpass

theorem apply_changes_rows_mono :
    ∀ (cs : List Change) (grid : InnerGrid) (items : ItemMap)
      (g' : InnerGrid) (i' : ItemMap) (err : Option InnerGridError),
      apply_changes grid items cs = (g', i', err) → grid.rows ≤ g'.rows := by
  intro cs
  induction cs with
  | nil =>
    intro grid items g' i' err h
    unfold apply_changes at h
    simp only [Prod.mk.injEq] at h
    obtain ⟨rfl, -⟩ := h
    exact le_refl _
  | cons c rest ih =>
    intro grid items g' i' err h
    unfold apply_changes at h
    rcases h1 : apply_one grid items c with ⟨g₁, i₁, e₁⟩
    rw [h1] at h
    rcases e₁ with _ | e₁ <;> dsimp only at h
    · exact le_trans (apply_one_rows_mono h1) (ih g₁ i₁ g' i' err h)
    · simp only [Prod.mk.injEq] at h
      obtain ⟨rfl, -⟩ := h
      exact apply_one_rows_mono h1

/-- C10: the grid's row count never decreases: for every public
operation (`add_item`, `move_item`, `remove_item`), whether it succeeds
or fails, the number of rows after the call is at least the number
before (in particular `remove_item` never shrinks a grid that previously
grew — nothing in the engine ever removes rows). -/
theorem C10_rows_never_decrease (fuel : Nat) (e : GridEngine) (op : Op)
    (e' : GridEngine) (ok : Bool)
    (h : runOp fuel e op = some (e', ok)) : e.grid.rows ≤ e'.grid.rows := by
  cases op with
  | add id x y w h' =>
    unfold runOp at h
    dsimp only at h
    rcases hcall : e.add_item fuel id x y w h' with _ | ⟨e₁, r⟩
    · rw [hcall] at h
      simp at h
    · rw [hcall] at h
      simp only [Option.map_some', Option.some.injEq, Prod.mk.injEq] at h
      obtain ⟨rfl, -⟩ := h
      unfold GridEngine.add_item at hcall
      by_cases hdup : (mapGet e.items id).isSome
      · rw [if_pos hdup] at hcall
        simp only [Option.some.injEq, Prod.mk.injEq] at hcall
        obtain ⟨rfl, -⟩ := hcall
        exact le_refl _
      · rw [if_neg hdup] at hcall
        dsimp only at hcall
        rcases hhc : handle_collision fuel e.items
            { id := id, x := x, y := y, w := w, h := h' } x y e.pending_changes e.grid
          with _ | ⟨pending', gdrop, errp⟩
        · rw [hhc] at hcall
          simp at hcall
        · rw [hhc] at hcall
          rcases errp with _ | errp <;> dsimp only at hcall
          · rcases happ : apply_changes e.grid e.items
                (pending' ++ [Change.Add { id := id, x := x, y := y, w := w, h := h' }])
              with ⟨grid', items', erra⟩
            rw [happ] at hcall
            have hle := apply_changes_rows_mono _ _ _ _ _ _ happ
            rcases erra with _ | erra <;> dsimp only at hcall
            · rcases hlook : mapGet items' id with _ | v <;> rw [hlook] at hcall <;>
                simp only [Option.some.injEq, Prod.mk.injEq] at hcall <;>
                obtain ⟨rfl, -⟩ := hcall <;> exact hle
            · simp only [Option.some.injEq, Prod.mk.injEq] at hcall
              obtain ⟨rfl, -⟩ := hcall
              exact hle
          · simp only [Option.some.injEq, Prod.mk.injEq] at hcall
            obtain ⟨rfl, -⟩ := hcall
            exact le_refl _
  | move id x y =>
    unfold runOp at h
    dsimp only at h
    rcases hcall : e.move_item fuel id x y with _ | ⟨e₁, r⟩
    · rw [hcall] at h
      simp at h
    · rw [hcall] at h
      simp only [Option.map_some', Option.some.injEq, Prod.mk.injEq] at h
      obtain ⟨rfl, -⟩ := h
      unfold GridEngine.move_item at hcall
      rcases hm : mapGet e.items id with _ | node <;> rw [hm] at hcall <;>
        dsimp only at hcall
      · simp only [Option.some.injEq, Prod.mk.injEq] at hcall
        obtain ⟨rfl, -⟩ := hcall
        exact le_refl _
      · rcases hcmc : create_move_change fuel e.items node x y e.pending_changes e.grid
          with _ | ⟨pending', gdrop, errp⟩
        · rw [hcmc] at hcall
          simp at hcall
        · rw [hcmc] at hcall
          rcases errp with _ | errp <;> dsimp only at hcall
          · rcases happ : apply_changes e.grid e.items pending' with ⟨grid', items', erra⟩
            rw [happ] at hcall
            have hle := apply_changes_rows_mono _ _ _ _ _ _ happ
            rcases erra with _ | erra <;> dsimp only at hcall <;>
              simp only [Option.some.injEq, Prod.mk.injEq] at hcall <;>
              obtain ⟨rfl, -⟩ := hcall <;> exact hle
          · simp only [Option.some.injEq, Prod.mk.injEq] at hcall
            obtain ⟨rfl, -⟩ := hcall
            exact le_refl _
  | remove id =>
    unfold runOp at h
    dsimp only at h
    simp only [Option.some.injEq, Prod.mk.injEq] at h
    obtain ⟨he, -⟩ := h
    rcases hcall : e.remove_item id with ⟨e₁, r⟩
    rw [hcall] at he
    have he2 : e₁ = e' := he
    subst he2
    unfold GridEngine.remove_item at hcall
    rcases hm : mapGet e.items id with _ | node <;> rw [hm] at hcall <;>
      dsimp only at hcall
    · simp only [Prod.mk.injEq] at hcall
      obtain ⟨rfl, -⟩ := hcall
      exact le_refl _
    · rcases happ : apply_changes e.grid e.items
          (e.pending_changes ++ [Change.Remove node]) with ⟨grid', items', erra⟩
      rw [happ] at hcall
      have hle := apply_changes_rows_mono _ _ _ _ _ _ happ
      rcases erra with _ | erra <;> dsimp only at hcall <;>
        simp only [Prod.mk.injEq] at hcall <;>
        obtain ⟨rfl, -⟩ := hcall <;> exact hle

/-- Concrete engine for the C10 witness: an `add_item` at `y = 4` on a
`3 × 3` engine, which grows the grid. -/
def c10WitnessEngine : GridEngine :=
  ((runOp 5 (GridEngine.new 3 3) (Op.add "x" 0 4 1 1)).map (fun p => p.1)).getD
    (GridEngine.new 3 3)

theorem C10_rows_never_decrease_witness :
    (GridEngine.new 3 3).grid.rows ≤ c10WitnessEngine.grid.rows :=
  C10_rows_never_decrease 5 (GridEngine.new 3 3) (Op.add "x" 0 4 1 1)
    c10WitnessEngine true (by rfl)

/-- C8: a grid-cell `Remove` clears a cell only when the cell's current
value equals the removing node's id; consequently `remove_item` clears
exactly the cells of the removed node's footprint that still hold its id
and changes no other cell — even when another item's id has since been
written into a cell of that footprint. -/
theorem C8_guarded_remove :
    (∀ (g g' : InnerGrid) (node : Node) (x y : Nat),
      g.update node x y .Remove = (g', none) →
      ∀ a b, cellAt g' a b =
        if a = x ∧ b = y ∧ cellAt g x y = some node.id then none
        else cellAt g a b) ∧
    (∀ (e e' : GridEngine) (id : String) (node rnode : Node),
      e.pending_changes = [] →
      mapGet e.items id = some node →
      e.remove_item id = (e', Except.ok rnode) →
      ∀ a b, cellAt e'.grid a b =
        if inRect node (a, b) ∧ cellAt e.grid a b = some node.id then none
        else cellAt e.grid a b) := by
  constructor
  · intro g g' node x y h a b
    exact InnerGrid.update_remove_char h a b
  · intro e e' id node rnode hpend hm hcall a b
    unfold GridEngine.remove_item at hcall
    rw [hm] at hcall
    dsimp only at hcall
    rw [hpend] at hcall
    rcases happ : apply_changes e.grid e.items ([] ++ [Change.Remove node])
      with ⟨grid', items', erra⟩
    rw [happ] at hcall
    rcases erra with _ | erra <;> dsimp only at hcall <;>
      simp only [Prod.mk.injEq] at hcall
    · obtain ⟨he, -⟩ := hcall
      rw [List.nil_append] at happ
      unfold apply_changes apply_one at happ
      dsimp only at happ
      rcases hpass : node.update_grid e.grid .Remove with ⟨gp, ep⟩
      rw [hpass] at happ
      rcases ep with _ | ep <;> dsimp only at happ
      · unfold apply_changes at happ
        simp only [Prod.mk.injEq] at happ
        obtain ⟨rfl, -⟩ := happ
        rw [← he]
        exact update_grid_remove_char hpass a b
      · simp at happ
    · exact absurd hcall.2 (by simp)

/-- Concrete engine for the C8 witness: item `"b"` has since been
written into cell `(0, 1)` of item `"a"`'s footprint `(0, 0, 1, 2)`. -/
def c8WitnessEngine : GridEngine :=
  { grid :=
      { can_expand_y := true
        cols := 3
        cells := [[some "a", none, none], [some "b", none, none],
          [none, none, none]] }
    items := [("a", ⟨"a", 0, 0, 1, 2⟩), ("b", ⟨"b", 0, 1, 1, 1⟩)]
    pending_changes := [] }

/-- The engine after removing `"a"` from the witness engine. -/
def c8WitnessAfter : GridEngine := (c8WitnessEngine.remove_item "a").1

theorem C8_guarded_remove_witness :
    cellAt c8WitnessAfter.grid 0 0 = none ∧
    cellAt c8WitnessAfter.grid 0 1 = some "b" := by
  have h := C8_guarded_remove.2 c8WitnessEngine c8WitnessAfter "a"
    ⟨"a", 0, 0, 1, 2⟩ ⟨"a", 0, 0, 1, 2⟩ rfl (by rfl) (by rfl)
  constructor
  · rw [h 0 0]
    decide
  · rw [h 0 1]
    decide

/-! ## First-scheduled-move-wins (dedup) lemmas -/

/-- The pending `Move` changes for a given id. -/
def movesFor (id : String) (cs : List Change) : List Change :=
  cs.filter (fun c => match c with
    | Change.Move _ nv => decide (nv.id = id)
    | _ => false)

theorem already_moved_append_left {p q : List Change} {id : String}
    (h : already_moved p id = true) : already_moved (p ++ q) id = true := by
  unfold already_moved at h ⊢
  rw [List.any_append, h]
  simp

theorem movesFor_append (id : String) (p q : List Change) :
    movesFor id (p ++ q) = movesFor id p ++ movesFor id q := by
  unfold movesFor
  rw [List.filter_append]

/-- The frame property of the planning functions: they only append to
the pending list, and never append a `Move` for an id that already has
one pending. -/
def CmcFrame (f : Node → Nat → Nat → List Change → InnerGrid → Option PlanResult) :
    Prop :=
  ∀ c nx ny pending grid res, f c nx ny pending grid = some res →
    ∃ extra, res.1 = pending ++ extra ∧
      ∀ id, already_moved pending id = true → movesFor id extra = []

theorem clAux_frame {f : Node → Nat → Nat → List Change → InnerGrid → Option PlanResult}
    (hf : CmcFrame f) (node : Node) (y : Nat) :
    ∀ (cw : List Node) (pending : List Change) (grid : InnerGrid) (res : PlanResult),
      clAux f node y cw pending grid = some res →
      ∃ extra, res.1 = pending ++ extra ∧
        ∀ id, already_moved pending id = true → movesFor id extra = [] := by
  intro cw
  induction cw with
  | nil =>
    intro pending grid res h
    unfold clAux at h
    cases h
    exact ⟨[], by simp, fun id _ => rfl⟩
  | cons collided rest ih =>
    intro pending grid res h
    unfold clAux at h
    rcases hupd : node.update_grid grid .Remove with ⟨ng, e⟩
    rw [hupd] at h
    rcases e with _ | e
    · dsimp only at h
      rcases hcmc : f collided collided.x (y + node.h) pending ng with _ | ⟨p', g', err⟩
      · rw [hcmc] at h
        exact absurd h (by simp)
      · rw [hcmc] at h
        obtain ⟨ex1, hex1, hfr1⟩ := hf _ _ _ _ _ _ hcmc
        dsimp only at hex1
        rcases err with _ | err
        · dsimp only at h
          obtain ⟨ex2, hex2, hfr2⟩ := ih p' grid res h
          refine ⟨ex1 ++ ex2, ?_, ?_⟩
          · rw [hex2, hex1, List.append_assoc]
          · intro id hid
            rw [movesFor_append, hfr1 id hid, List.nil_append]
            apply hfr2
            rw [hex1]
            exact already_moved_append_left hid
        · dsimp only at h
          cases h
          exact ⟨ex1, hex1, hfr1⟩
    · dsimp only at h
      cases h
      exact ⟨[], by simp, fun id _ => rfl⟩

theorem hcAux_frame {f : Node → Nat → Nat → List Change → InnerGrid → Option PlanResult}
    (hf : CmcFrame f) (items : ItemMap) (node : Node) (x y : Nat)
    (pending : List Change) (grid : InnerGrid) (res : PlanResult)
    (h : hcAux f items node x y pending grid = some res) :
    ∃ extra, res.1 = pending ++ extra ∧
      ∀ id, already_moved pending id = true → movesFor id extra = [] := by
  unfold hcAux at h
  rcases hw : will_collides_with items node x y grid with ⟨cw, grid', err⟩
  rw [hw] at h
  rcases err with _ | e
  · dsimp only at h
    exact clAux_frame hf node y cw pending grid' res h
  · dsimp only at h
    cases h
    exact ⟨[], by simp, fun id _ => rfl⟩

theorem cmc_frame (items : ItemMap) :
    ∀ fuel, CmcFrame (create_move_change fuel items) := by
  intro fuel
  induction fuel with
  | zero =>
    intro c nx ny p g res h
    exact absurd h (by simp [create_move_change])
  | succ f ih =>
    intro c nx ny p g res h
    unfold create_move_change at h
    rcases hh : hcAux (create_move_change f items) items c nx ny p g
      with _ | ⟨p', g', err⟩
    · rw [hh] at h
      exact absurd h (by simp)
    · rw [hh] at h
      obtain ⟨ex1, hex1, hfr1⟩ := hcAux_frame ih items c nx ny p g (p', g', err) hh
      dsimp only at hex1
      rcases err with _ | e
      · dsimp only at h
        by_cases ham : already_moved p' c.id
        · rw [if_pos ham] at h
          cases h
          exact ⟨ex1, hex1, hfr1⟩
        · rw [if_neg ham] at h
          cases h
          refine ⟨ex1 ++ [Change.Move c
            { id := c.id, x := nx, y := ny, w := c.w, h := c.h }], ?_, ?_⟩
          · rw [hex1, List.append_assoc]
          · intro id hid
            rw [movesFor_append, hfr1 id hid, List.nil_append]
            have hne : c.id ≠ id := by
              intro he
              apply ham
              rw [he, hex1]
              exact already_moved_append_left hid
            simp [movesFor, List.filter_cons, hne]
      · dsimp only at h
        cases h
        exact ⟨ex1, hex1, hfr1⟩

/-- C4: within one public operation, if a `Move` change for a given id
is already pending in the change set, scheduling another move for that
id is a no-op for that id: the first scheduled destination wins — the
pending `Move` changes for that id after any further
`create_move_change` call (including all its cascades) are exactly those
before, so no later cascade overrides the destination or appends a
second `Move` for the id. -/
theorem C4_first_scheduled_move_wins (fuel : Nat) (items : ItemMap)
    (node : Node) (nx ny : Nat) (pending : List Change) (grid : InnerGrid)
    (res : PlanResult)
    (ham : already_moved pending node.id = true)
    (h : create_move_change fuel items node nx ny pending grid = some res) :
    movesFor node.id res.1 = movesFor node.id pending := by
  obtain ⟨extra, hex, hfr⟩ := cmc_frame items fuel node nx ny pending grid res h
  rw [hex, movesFor_append, hfr node.id ham, List.append_nil]

/-- Concrete data for the C4 witness: a `Move` for `"m"` is already
pending; scheduling another move for `"m"` leaves its pending moves
unchanged. -/
def c4WitnessPending : List Change :=
  [Change.Move ⟨"m", 0, 0, 1, 1⟩ ⟨"m", 1, 1, 1, 1⟩]

def c4WitnessGrid : InnerGrid :=
  { can_expand_y := true
    cols := 2
    cells := [[some "m", none], [none, none]] }

theorem C4_first_scheduled_move_wins_witness :
    movesFor "m"
      ((create_move_change 5 [("m", ⟨"m", 0, 0, 1, 1⟩)] ⟨"m", 0, 0, 1, 1⟩ 0 1
          c4WitnessPending c4WitnessGrid).getD
        ([], c4WitnessGrid, none)).1 = movesFor "m" c4WitnessPending :=
  C4_first_scheduled_move_wins 5 [("m", ⟨"m", 0, 0, 1, 1⟩)] ⟨"m", 0, 0, 1, 1⟩
    0 1 c4WitnessPending c4WitnessGrid _ (by decide) (by rfl)

/-! ## C3: the push-down displacement rule -/

/-- Concrete engines for C3: `A` then `B`, both requested at
`(0, 0, 2, 2)` on a `10 × 10` grid. -/
def c3EngineA : GridEngine :=
  (((GridEngine.new 10 10).add_item 10 "A" 0 0 2 2).map (fun p => p.1)).getD
    (GridEngine.new 10 10)

def c3EngineB : GridEngine :=
  ((c3EngineA.add_item 10 "B" 0 0 2 2).map (fun p => p.1)).getD c3EngineA

/-- C3: when a node placed or moved to `(x, y)` collides with an
existing node `c` (stated for a single collision whose pushed-down
destination is itself collision-free, so the cascade stops there), the
collision pass schedules no change for the incoming node — it keeps its
requested position — and schedules exactly one `Move` of `c` to
`(c.x, y + node.h)`: pushed straight down by exactly the incoming node's
height, keeping `c`'s original column. Concretely, on a `10 × 10` grid,
after `add_item("A",0,0,2,2)` then `add_item("B",0,0,2,2)`, `B` is
registered at `(0, 0)` and `A` at `(0, 2)`. -/
theorem C3_pushed_down_by_incoming_height :
    (∀ (fuel : Nat) (items : ItemMap) (node : Node) (x y : Nat)
        (pending : List Change) (grid : InnerGrid) (c : Node)
        (g1 g1' g2 : InnerGrid),
      will_collides_with items node x y grid = ([c], g1, none) →
      node.update_grid g1 .Remove = (g1', none) →
      will_collides_with items c c.x (y + node.h) g1' = ([], g2, none) →
      already_moved pending c.id = false →
      handle_collision (fuel + 1) items node x y pending grid =
        some (pending ++
          [Change.Move c (Node.mk c.id c.x (y + node.h) c.w c.h)], g1, none)) ∧
    ((((GridEngine.new 10 10).add_item 10 "A" 0 0 2 2).map
        (fun p => exceptOk p.2)) = some true ∧
      ((c3EngineA.add_item 10 "B" 0 0 2 2).map
        (fun p => exceptOk p.2)) = some true ∧
      mapGet c3EngineB.items "B" = some ⟨"B", 0, 0, 2, 2⟩ ∧
      mapGet c3EngineB.items "A" = some ⟨"A", 0, 2, 2, 2⟩) := by
  constructor
  · intro fuel items node x y pending grid c g1 g1' g2 hw hupd hw2 ham
    unfold handle_collision hcAux
    rw [hw]
    dsimp only
    unfold clAux
    rw [hupd]
    dsimp only
    have hcmc : create_move_change (fuel + 1) items c c.x (y + node.h) pending g1' =
        some (pending ++
          [Change.Move c (Node.mk c.id c.x (y + node.h) c.w c.h)], g2, none) := by
      unfold create_move_change hcAux
      rw [hw2]
      dsimp only
      unfold clAux
      dsimp only
      rw [ham]
      rfl
    rw [hcmc]
    rfl
  · refine ⟨by rfl, by rfl, by rfl, by rfl⟩

/-- Concrete grid for the C3 witness: a `2 × 2` grid whose cell `(0, 0)`
holds the single registered item `"c0"`. -/
def c3WitnessGrid : InnerGrid :=
  { can_expand_y := true
    cols := 2
    cells := [[some "c0", none], [none, none]] }

theorem C3_pushed_down_by_incoming_height_witness :
    handle_collision 6 [("c0", ⟨"c0", 0, 0, 1, 1⟩)] ⟨"n", 0, 0, 1, 1⟩ 0 0 []
        c3WitnessGrid =
      some ([Change.Move ⟨"c0", 0, 0, 1, 1⟩ ⟨"c0", 0, 1, 1, 1⟩],
        c3WitnessGrid, none) :=
  C3_pushed_down_by_incoming_height.1 5 [("c0", ⟨"c0", 0, 0, 1, 1⟩)]
    ⟨"n", 0, 0, 1, 1⟩ 0 0 [] c3WitnessGrid ⟨"c0", 0, 0, 1, 1⟩
    c3WitnessGrid c3WitnessGrid c3WitnessGrid
    (by rfl) (by rfl) (by rfl) (by rfl)

/-! ## C2: overlap-freedom after add/move -/

/-- A registered node's geometry matches its grid footprint: every cell
of its rectangle holds its id, and no in-bounds cell outside the
rectangle holds it. -/
def FootprintExact (g : InnerGrid) (n : Node) : Prop :=
  (∀ p ∈ n.cells, cellAt g p.1 p.2 = some n.id) ∧
  (∀ b < g.rows, ∀ a < g.cols, cellAt g a b = some n.id → inRect n (a, b))

instance (g : InnerGrid) (n : Node) : Decidable (FootprintExact g n) := by
  unfold FootprintExact
  infer_instance

/-- The engines of the C2 counterexample run: `a` at `(0,0,1,1)`, `b` at
`(0,1,1,1)`, then `I` at `(0,0,1,2)` collides with both at once. -/
def c2CexE0 : GridEngine := GridEngine.new 10 10

def c2CexE1 : GridEngine :=
  ((c2CexE0.add_item 20 "a" 0 0 1 1).map (fun p => p.1)).getD c2CexE0

def c2CexE2 : GridEngine :=
  ((c2CexE1.add_item 20 "b" 0 1 1 1).map (fun p => p.1)).getD c2CexE1

def c2CexE3 : GridEngine :=
  ((c2CexE2.add_item 20 "I" 0 0 1 2).map (fun p => p.1)).getD c2CexE2

/-- C2 counterexample: the claim's universal part is false. On a
`10 × 10` grid, `add_item("a",0,0,1,1)`, `add_item("b",0,1,1,1)` and
`add_item("I",0,0,1,2)` all succeed, yet afterwards `a` and `b` are both
registered at `(0, 2, 1, 1)`: their footprints share cell `(0, 2)` — the
layout is not overlap-free — and `a`'s registered geometry does not
match its grid footprint, since cell `(0, 2)` holds `"b"`. (Both `a` and
`b` collide with the incoming `I`, and each is pushed to
`(its x, 0 + I.h) = (0, 2)` against a scratch grid that does not contain
the other's scheduled move.) -/
theorem C2_overlap_counterexample :
    ((c2CexE0.add_item 20 "a" 0 0 1 1).map (fun p => exceptOk p.2)) = some true ∧
    ((c2CexE1.add_item 20 "b" 0 1 1 1).map (fun p => exceptOk p.2)) = some true ∧
    ((c2CexE2.add_item 20 "I" 0 0 1 2).map (fun p => exceptOk p.2)) = some true ∧
    mapGet c2CexE3.items "a" = some ⟨"a", 0, 2, 1, 1⟩ ∧
    mapGet c2CexE3.items "b" = some ⟨"b", 0, 2, 1, 1⟩ ∧
    inRect (⟨"a", 0, 2, 1, 1⟩ : Node) (0, 2) ∧
    inRect (⟨"b", 0, 2, 1, 1⟩ : Node) (0, 2) ∧
    cellAt c2CexE3.grid 0 2 = some "b" ∧
    ¬FootprintExact c2CexE3.grid ⟨"a", 0, 2, 1, 1⟩ :=
  ⟨rfl, rfl, rfl, rfl, rfl, by decide, by decide, rfl, by decide⟩

/-- The engines of the 14×10 cascade scenario of the claim. -/
def c2ScenE0 : GridEngine := GridEngine.new 14 10

def c2ScenE1 : GridEngine :=
  ((c2ScenE0.add_item 30 "0" 1 1 2 3).map (fun p => p.1)).getD c2ScenE0

def c2ScenE2 : GridEngine :=
  ((c2ScenE1.add_item 30 "1" 2 4 2 4).map (fun p => p.1)).getD c2ScenE1

def c2ScenE3 : GridEngine :=
  ((c2ScenE2.add_item 30 "2" 0 6 2 4).map (fun p => p.1)).getD c2ScenE2

def c2ScenE4 : GridEngine :=
  ((c2ScenE3.move_item 30 "2" 1 2).map (fun p => p.1)).getD c2ScenE3

/-- C2 as amended: the concrete scenario of the claim holds — in a
`14 × 10` grid, after `add "0"` at `(1,1,2,3)`, `add "1"` at
`(2,4,2,4)`, `add "2"` at `(0,6,2,4)` and `move_item("2", 1, 2)` (all
successful), the three items are pairwise non-overlapping and each
item's registered geometry matches its grid footprint exactly. (The
universal part of the original claim — overlap-freedom after every
successful `add_item`/`move_item` — is refuted by the counterexample;
only grid–registry consistency is preserved in general, per C1.) -/
theorem C2_cascade_scenario_overlap_free :
    ((c2ScenE0.add_item 30 "0" 1 1 2 3).map (fun p => exceptOk p.2)) = some true ∧
    ((c2ScenE1.add_item 30 "1" 2 4 2 4).map (fun p => exceptOk p.2)) = some true ∧
    ((c2ScenE2.add_item 30 "2" 0 6 2 4).map (fun p => exceptOk p.2)) = some true ∧
    ((c2ScenE3.move_item 30 "2" 1 2).map (fun p => exceptOk p.2)) = some true ∧
    mapGet c2ScenE4.items "0" = some ⟨"0", 1, 6, 2, 3⟩ ∧
    mapGet c2ScenE4.items "1" = some ⟨"1", 2, 9, 2, 4⟩ ∧
    mapGet c2ScenE4.items "2" = some ⟨"2", 1, 2, 2, 4⟩ ∧
    (∀ p : Nat × Nat,
      ¬(inRect (⟨"0", 1, 6, 2, 3⟩ : Node) p ∧ inRect (⟨"1", 2, 9, 2, 4⟩ : Node) p)) ∧
    (∀ p : Nat × Nat,
      ¬(inRect (⟨"0", 1, 6, 2, 3⟩ : Node) p ∧ inRect (⟨"2", 1, 2, 2, 4⟩ : Node) p)) ∧
    (∀ p : Nat × Nat,
      ¬(inRect (⟨"1", 2, 9, 2, 4⟩ : Node) p ∧ inRect (⟨"2", 1, 2, 2, 4⟩ : Node) p)) ∧
    FootprintExact c2ScenE4.grid ⟨"0", 1, 6, 2, 3⟩ ∧
    FootprintExact c2ScenE4.grid ⟨"1", 2, 9, 2, 4⟩ ∧
    FootprintExact c2ScenE4.grid ⟨"2", 1, 2, 2, 4⟩ := by
  refine ⟨rfl, rfl, rfl, rfl, rfl, rfl, rfl, ?_, ?_, ?_, by decide, by decide, by decide⟩
  · rintro p ⟨h1, h2⟩
    unfold inRect at h1 h2
    dsimp only at h1 h2
    omega
  · rintro p ⟨h1, h2⟩
    unfold inRect at h1 h2
    dsimp only at h1 h2
    omega
  · rintro p ⟨h1, h2⟩
    unfold inRect at h1 h2
    dsimp only at h1 h2
    omega

end GridEngineModel
